import Mathlib

/-!
Verification of the region arena layer of mimalloc (src/memory.c).

The development shallowly embeds the C code in Lean: machine words
(`uintptr_t`/`size_t`) become `Nat` with explicit `2^64` bounds where
overflow matters, the global region table becomes an explicit state
record that is threaded through the operations, and calls into the OS
layer are recorded in an event trace and answered by an explicit
environment (oracle).  The embedding is the sequential semantics of the
code: every compare-and-swap loop succeeds on its first iteration since
no other thread interferes, so each CAS retry loop is modelled by its
single successful iteration.  Loops over bits of a word are modelled by
fueled recursion; the fuel is always instantiated large enough that it
is never exhausted (this is proved, not assumed, in the lemmas below).
-/

/-! ### Constants (64-bit target, MI_INTPTR_SIZE = 8) -/

def MI_INTPTR_SIZE : Nat := 8

/-- Modelled from the spec: the block size BLOCK_SIZE matches the
upper-layer segment size, 4 MiB; `MI_SEGMENT_SIZE` is defined in a
header outside this file (the comments in memory.c also state
4 MiB blocks, 256 MiB regions and a 64 MiB maximum allocation,
which this value reproduces exactly). -/
def MI_SEGMENT_SIZE : Nat := 4 * 1024 * 1024

def MI_SEGMENT_ALIGN : Nat := MI_SEGMENT_SIZE

def MI_REGION_MAP_BITS : Nat := MI_INTPTR_SIZE * 8

def MI_REGION_SIZE : Nat := MI_SEGMENT_SIZE * MI_REGION_MAP_BITS

def MI_REGION_MAX_ALLOC_SIZE : Nat := (MI_REGION_MAP_BITS / 4) * MI_SEGMENT_SIZE

def MI_HEAP_REGION_MAX_SIZE : Nat := 256 * (1 <<< 30)

def MI_REGION_MAX : Nat := MI_HEAP_REGION_MAX_SIZE / MI_REGION_SIZE

/-- SIZE_MAX on a 64-bit target. -/
def SIZE_MAX : Nat := 2 ^ 64 - 1

def MI_REGION_MAP_FULL : Nat := SIZE_MAX

/-- Word size bound: every `uintptr_t` value is below `2^64`. -/
def UINTPTR_BOUND : Nat := 2 ^ 64

/-- C bitwise complement on a 64-bit word: `~x = x XOR UINTPTR_MAX`. -/
def cnot64 (x : Nat) : Nat := MI_REGION_MAP_FULL ^^^ x

/-! ### External helpers declared in headers outside this file -/

/-- Modelled from the spec: `_mi_align_up` (declared in
mimalloc-internal.h, outside this file) rounds `sz` up to the next
multiple of `alignment` ("round size to an OS page size multiple"). -/
def _mi_align_up (sz alignment : Nat) : Nat :=
  ((sz + alignment - 1) / alignment) * alignment

/-! ### Environment: OS oracle and option settings

The OS primitives and the option lookup are external collaborators; the
environment fixes their (deterministic) behaviour for one execution. -/

structure Env where
  /-- result of `_mi_os_page_size()` -/
  page_size : Nat
  /-- result of `_mi_os_large_page_size()` -/
  large_page_size : Nat
  /-- result of `mi_option_is_enabled(mi_option_eager_region_commit)` -/
  eager_commit : Bool
  /-- `_mi_os_alloc_aligned(size, alignment, commit, tld)`:
  `none` models a NULL return (allocation failure). -/
  os_alloc : Nat → Nat → Bool → Option Nat
  /-- result of `_mi_os_commit(p, size, stats)` -/
  os_commit_ok : Nat → Nat → Bool

/-- mi_good_commit_size: rounded commit/reset size (memory.c lines 99-102). -/
def mi_good_commit_size (env : Env) (size : Nat) : Nat :=
  if size > SIZE_MAX - env.large_page_size then size
  else _mi_align_up size env.large_page_size

/-! ### Pure bitmap helpers (memory.c lines 87-96) -/

/-- mi_region_block_count: blocks (of 4MiB) needed for the given size. -/
def mi_region_block_count (size : Nat) : Nat :=
  (size + MI_SEGMENT_SIZE - 1) / MI_SEGMENT_SIZE

/-- mi_region_block_mask: the bit mask for `blocks` blocks at bit index
`bitidx`.  For `blocks + bitidx ≤ 64` this `Nat` value coincides with
the C expression `(((uintptr_t)1 << blocks) - 1) << bitidx`. -/
def mi_region_block_mask (blocks bitidx : Nat) : Nat :=
  ((1 <<< blocks) - 1) <<< bitidx

/-! ### The bit-run search of mi_region_alloc_blocks (lines 167-188)

The C search walks the word `m` by alternately skipping set bits and
counting runs of zero bits.  Each inner loop is modelled by a fueled
recursion; `MI_REGION_MAP_BITS` units of fuel suffice for any word below
`2^64` (proved below, never assumed). -/

/-- The skip-ones inner loop: `while ((m&1)==1) { bitidx++; m>>=1; }`.
Returns the number of positions skipped (the number of trailing one
bits of `m`, provided `m < 2^fuel`). -/
def trailingOnes : Nat → Nat → Nat
  | 0, _ => 0
  | fuel + 1, m => if m % 2 = 1 then trailingOnes fuel (m / 2) + 1 else 0

/-- The count-zeros inner loop:
`while (zeros < blocks && (m&1)==0) { zeros++; m>>=1; }`.
Returns the final value of `zeros`. -/
def countZeros : Nat → Nat → Nat → Nat → Nat
  | 0, _, zeros, _ => zeros
  | fuel + 1, m, zeros, blocks =>
      if zeros < blocks ∧ m % 2 = 0 then countZeros fuel (m / 2) (zeros + 1) blocks
      else zeros

/-- The outer search loop of mi_region_alloc_blocks (lines 174-185),
returning the final value of `bitidx`.  One unit of (outer) fuel per
iteration; `bitidx` grows by at least one per iteration, so
`bitidx_max + 1` units suffice. -/
def searchLoop : Nat → Nat → Nat → Nat → Nat → Nat
  | 0, _, bitidx, _, _ => bitidx
  | fuel + 1, m, bitidx, blocks, bitidx_max =>
      -- skip ones
      let k := trailingOnes MI_REGION_MAP_BITS m
      let m1 := m >>> k
      -- count zeros: zeros starts at 1 after the unconditional m >>= 1
      let zeros := countZeros MI_REGION_MAP_BITS (m1 / 2) 1 blocks
      if zeros = blocks then bitidx + k            -- found a range that fits
      else if bitidx + k + zeros ≤ bitidx_max then
        searchLoop fuel (m1 >>> zeros) (bitidx + k + zeros) blocks bitidx_max
      else bitidx + k + zeros

/-- The claim search of mi_region_alloc_blocks on one atomically read
`map` word: `some bitidx` when a run of `blocks` zero bits is found at
`bitidx` (then the code goes on to CAS the claim), `none` when
`bitidx > bitidx_max` after the walk (line 186: no fit, not an error). -/
def mi_region_search (map blocks : Nat) : Option Nat :=
  let bitidx_max := MI_REGION_MAP_BITS - blocks
  let bitidx := searchLoop (MI_REGION_MAP_BITS + 1) map 0 blocks bitidx_max
  if bitidx > bitidx_max then none else some bitidx

/-! ### State: the region table and globals (memory.c lines 68-79) -/

structure MemRegion where
  map : Nat
  start : Option Nat
deriving Repr, DecidableEq

structure GlobalState where
  regions : Nat → MemRegion
  regions_count : Nat
  region_next_idx : Nat

/-- Point update of the region table. -/
def setRegion (s : GlobalState) (idx : Nat) (reg : MemRegion) : GlobalState :=
  { s with regions := fun r => if r = idx then reg else s.regions r }

/-- Events recorded during an operation: calls into the OS layer and
successful CAS publications of a region map word, in program order. -/
inductive OsEvent where
  | osAlloc (size align : Nat) (commit : Bool)
  | osFree (addr size : Nat)
  | osCommit (addr size : Nat) (ok : Bool)
  | osDecommit (addr size : Nat)
  | osReset (addr size : Nat)
  | mapWrite (idx newmap : Nat)
deriving Repr, DecidableEq

/-- Result of the block-level routines: `err` is the C `false` return
(OOM), `ok p id` the C `true` return with `*p`/`*id` written, `nofit`
the C `true` return with `p` left NULL. -/
inductive BlockResult where
  | err
  | nofit
  | ok (p id : Nat)
deriving Repr, DecidableEq

/-! ### mi_region_commit_blocks (memory.c lines 112-155) -/

/-- The tail of mi_region_commit_blocks once `start` is available
(lines 142-154): optional commit of the claimed sub-range, publication
of the search cursor, and the `*p`/`*id` result. -/
def mi_region_commit_finish (env : Env) (s : GlobalState) (idx bitidx size : Nat)
    (commit : Bool) (start : Nat) (tr : List OsEvent) :
    GlobalState × List OsEvent × BlockResult :=
  let blocks_start := start + bitidx * MI_SEGMENT_SIZE
  let tr2 :=
    if commit ∧ ¬ env.eager_commit then
      tr ++ [OsEvent.osCommit blocks_start (mi_good_commit_size env size)
              (env.os_commit_ok blocks_start (mi_good_commit_size env size))]
    else tr
  ({ s with region_next_idx := idx }, tr2,
   BlockResult.ok blocks_start (idx * MI_REGION_MAP_BITS + bitidx))

/-- mi_region_commit_blocks.  In the sequential semantics the CAS that
publishes `start` always succeeds (the losing branch of the publication
race, lines 134-139, is unreachable without a concurrent competitor),
and the unclaim CAS retry loop runs exactly once. -/
def mi_region_commit_blocks (env : Env) (s : GlobalState)
    (idx bitidx blocks size : Nat) (commit : Bool) :
    GlobalState × List OsEvent × BlockResult :=
  let mask := mi_region_block_mask blocks bitidx
  let region := s.regions idx
  match region.start with
  | some a => mi_region_commit_finish env s idx bitidx size commit a []
  | none =>
      match env.os_alloc MI_REGION_SIZE MI_SEGMENT_ALIGN env.eager_commit with
      | none =>
          -- failure to allocate from the OS: unclaim the blocks and fail
          let newmap := region.map &&& cnot64 mask
          (setRegion s idx { region with map := newmap },
           [OsEvent.osAlloc MI_REGION_SIZE MI_SEGMENT_ALIGN env.eager_commit,
            OsEvent.mapWrite idx newmap],
           BlockResult.err)
      | some a =>
          -- set the newly allocated region; the CAS wins, update the count
          let s1 := setRegion s idx { region with start := some a }
          let s2 := { s1 with regions_count := s1.regions_count + 1 }
          mi_region_commit_finish env s2 idx bitidx size commit a
            [OsEvent.osAlloc MI_REGION_SIZE MI_SEGMENT_ALIGN env.eager_commit]

/-! ### mi_region_alloc_blocks (lines 161-201) -/

/-- mi_region_alloc_blocks: search the region map for a free run, claim
it with a CAS (which succeeds at once in the sequential semantics), and
commit.  With no fit the map is untouched and `p` is left NULL. -/
def mi_region_alloc_blocks (env : Env) (s : GlobalState)
    (idx blocks size : Nat) (commit : Bool) :
    GlobalState × List OsEvent × BlockResult :=
  let region := s.regions idx
  let mask := mi_region_block_mask blocks 0
  match mi_region_search region.map blocks with
  | none => (s, [], BlockResult.nofit)
  | some bitidx =>
      let newmap := region.map ||| (mask <<< bitidx)
      let s1 := setRegion s idx { region with map := newmap }
      let r := mi_region_commit_blocks env s1 idx bitidx blocks size commit
      (r.1, OsEvent.mapWrite idx newmap :: r.2.1, r.2.2)

/-- mi_region_try_alloc_blocks (lines 207-219): quick full-map check
before attempting a claim. -/
def mi_region_try_alloc_blocks (env : Env) (s : GlobalState)
    (idx blocks size : Nat) (commit : Bool) :
    GlobalState × List OsEvent × BlockResult :=
  let m := (s.regions idx).map
  if m ≠ MI_REGION_MAP_FULL then mi_region_alloc_blocks env s idx blocks size commit
  else (s, [], BlockResult.nofit)

/-! ### _mi_mem_alloc_aligned (lines 227-270) -/

/-- One sweep of the region scan: probe the region indices in order,
stopping at the first hard error or successful claim. -/
def sweep (env : Env) (blocks size : Nat) (commit : Bool) :
    List Nat → GlobalState → GlobalState × List OsEvent × BlockResult
  | [], s => (s, [], BlockResult.nofit)
  | idx :: rest, s =>
      match mi_region_try_alloc_blocks env s idx blocks size commit with
      | (s1, tr1, BlockResult.nofit) =>
          let r := sweep env blocks size commit rest s1
          (r.1, tr1 ++ r.2.1, r.2.2)
      | (s1, tr1, BlockResult.err) => (s1, tr1, BlockResult.err)
      | (s1, tr1, BlockResult.ok p id) => (s1, tr1, BlockResult.ok p id)

structure AllocResult where
  state : GlobalState
  trace : List OsEvent
  p : Option Nat
  id : Nat

/-- _mi_mem_alloc_aligned.  `*id` starts at SIZE_MAX and is overwritten
only by a successful region claim. -/
def _mi_mem_alloc_aligned (env : Env) (s : GlobalState)
    (size alignment : Nat) (commit : Bool) : AllocResult :=
  if size > MI_REGION_MAX_ALLOC_SIZE ∨ alignment > MI_SEGMENT_ALIGN then
    -- use direct OS allocation for huge blocks or alignment (id = SIZE_MAX)
    { state := s,
      trace := [OsEvent.osAlloc (mi_good_commit_size env size) alignment true],
      p := env.os_alloc (mi_good_commit_size env size) alignment true,
      id := SIZE_MAX }
  else
    -- round size to an OS page size multiple
    let size1 := _mi_align_up size env.page_size
    let blocks := mi_region_block_count size1
    let count := s.regions_count
    let idx0 := s.region_next_idx
    let l1 := (List.range count).map (fun visited => (idx0 + visited) % count)
    match sweep env blocks size1 commit l1 s with
    | (s1, tr1, BlockResult.err) =>
        { state := s1, trace := tr1, p := none, id := SIZE_MAX }
    | (s1, tr1, BlockResult.ok p id) =>
        { state := s1, trace := tr1, p := some p, id := id }
    | (s1, tr1, BlockResult.nofit) =>
        -- no free range in existing regions: try to extend beyond the count
        let l2 := (List.range (MI_REGION_MAX - count)).map (fun k => count + k)
        match sweep env blocks size1 commit l2 s1 with
        | (s2, tr2, BlockResult.err) =>
            { state := s2, trace := tr1 ++ tr2, p := none, id := SIZE_MAX }
        | (s2, tr2, BlockResult.ok p id) =>
            { state := s2, trace := tr1 ++ tr2, p := some p, id := id }
        | (s2, tr2, BlockResult.nofit) =>
            -- we could not find a place to allocate, fall back to the os
            { state := s2,
              trace := tr1 ++ tr2 ++ [OsEvent.osAlloc size1 alignment commit],
              p := env.os_alloc size1 alignment commit,
              id := SIZE_MAX }

/-- _mi_mem_alloc (line 274). -/
def _mi_mem_alloc (env : Env) (s : GlobalState) (size : Nat) (commit : Bool) :
    AllocResult :=
  _mi_mem_alloc_aligned env s size 0 commit

/-! ### _mi_mem_free (lines 283-334) -/

structure FreeResult where
  state : GlobalState
  trace : List OsEvent

/-- _mi_mem_free, sequential semantics; release (NDEBUG) behaviour: the
`mi_assert_internal` statements are no-ops, only the explicit
`if (...) return` guards take effect. -/
def _mi_mem_free (env : Env) (s : GlobalState) (p : Option Nat) (size id : Nat) :
    FreeResult :=
  match p with
  | none => { state := s, trace := [] }
  | some pv =>
    if size = 0 then { state := s, trace := [] }
    else if id = SIZE_MAX then
      -- was a direct OS allocation, pass through
      { state := s, trace := [OsEvent.osFree pv size] }
    else
      -- allocated in a region
      if size > MI_REGION_MAX_ALLOC_SIZE then { state := s, trace := [] }
      else
        let size1 := _mi_align_up size env.page_size
        let idx := id / MI_REGION_MAP_BITS
        let bitidx := id % MI_REGION_MAP_BITS
        let blocks := mi_region_block_count size1
        let mask := mi_region_block_mask blocks bitidx
        if idx ≥ MI_REGION_MAX then { state := s, trace := [] }
        else
          let region := s.regions idx
          let blocks_start := (region.start.getD 0) + bitidx * MI_SEGMENT_SIZE
          if pv ≠ blocks_start ∨ bitidx + blocks > MI_REGION_MAP_BITS then
            { state := s, trace := [] }
          else
            -- decommit (or reset) the blocks, then unclaim with a CAS
            let ev := if env.eager_commit then OsEvent.osReset pv size1
                      else OsEvent.osDecommit pv size1
            let newmap := region.map &&& cnot64 mask
            { state := setRegion s idx { region with map := newmap },
              trace := [ev, OsEvent.mapWrite idx newmap] }

/-! ### Arithmetic and bit-level helper lemmas -/

lemma two_pow_bits_eq : (2 : Nat) ^ MI_REGION_MAP_BITS = UINTPTR_BOUND := rfl

lemma mod_two_pow_eq_zero_iff :
    ∀ (b m : Nat), m % 2 ^ b = 0 ↔ ∀ u, u < b → m / 2 ^ u % 2 = 0 := by
  intro b
  induction b with
  | zero => intro m; simp [Nat.mod_one]
  | succ b ih =>
    intro m
    have hsplit : m % 2 ^ (b + 1) = m % 2 + 2 * (m / 2 % 2 ^ b) := by
      rw [pow_succ']; exact Nat.mod_mul
    constructor
    · intro h u hu
      have hm2 : m % 2 = 0 := by omega
      have hd : m / 2 % 2 ^ b = 0 := by omega
      cases u with
      | zero => simpa using hm2
      | succ u =>
        have hrec := (ih (m / 2)).mp hd u (by omega)
        rw [pow_succ', ← Nat.div_div_eq_div_mul]
        exact hrec
    · intro h
      have hm2 : m % 2 = 0 := by simpa using h 0 (Nat.succ_pos b)
      have hd : m / 2 % 2 ^ b = 0 := by
        apply (ih (m / 2)).mpr
        intro u hu
        have hrec := h (u + 1) (by omega)
        rw [pow_succ', ← Nat.div_div_eq_div_mul] at hrec
        exact hrec
      omega

lemma mask_eq_mul (blocks bitidx : Nat) :
    mi_region_block_mask blocks bitidx = (2 ^ blocks - 1) * 2 ^ bitidx := by
  unfold mi_region_block_mask
  rw [Nat.shiftLeft_eq, Nat.one_shiftLeft]

lemma mask_testBit (blocks bitidx k : Nat) :
    (mi_region_block_mask blocks bitidx).testBit k
      = decide (bitidx ≤ k ∧ k < bitidx + blocks) := by
  unfold mi_region_block_mask
  rw [Nat.testBit_shiftLeft, Nat.one_shiftLeft, Nat.testBit_two_pow_sub_one,
    ← Bool.decide_and, decide_eq_decide]
  omega

lemma mask_lt (blocks bitidx : Nat) (h : blocks + bitidx ≤ MI_REGION_MAP_BITS) :
    mi_region_block_mask blocks bitidx < UINTPTR_BOUND := by
  rw [mask_eq_mul]
  have h1 : (2 ^ blocks - 1) * 2 ^ bitidx < 2 ^ blocks * 2 ^ bitidx :=
    mul_lt_mul_of_pos_right (Nat.sub_lt (Nat.two_pow_pos blocks) Nat.one_pos)
      (Nat.two_pow_pos bitidx)
  have h2 : (2 : Nat) ^ blocks * 2 ^ bitidx ≤ UINTPTR_BOUND := by
    rw [← Nat.pow_add, ← two_pow_bits_eq]
    exact Nat.pow_le_pow_right (by norm_num) h
  omega

lemma land_eq_zero_iff (x y : Nat) :
    x &&& y = 0 ↔ ∀ k, ¬ (x.testBit k = true ∧ y.testBit k = true) := by
  constructor
  · intro h k hk
    have hb := congrArg (fun z => Nat.testBit z k) h
    simp only [Nat.testBit_and, Nat.zero_testBit, hk.1, hk.2, Bool.and_self] at hb
    exact Bool.noConfusion hb
  · intro h
    apply Nat.eq_of_testBit_eq
    intro k
    have hk := h k
    simp only [Nat.testBit_and, Nat.zero_testBit]
    cases hx : x.testBit k <;> cases hy : y.testBit k <;> simp_all

lemma mask_land_zero_iff (map blocks i : Nat) :
    map &&& mi_region_block_mask blocks i = 0 ↔ (map >>> i) % 2 ^ blocks = 0 := by
  rw [land_eq_zero_iff]
  constructor
  · intro h
    rw [mod_two_pow_eq_zero_iff]
    intro u hu
    by_contra hne
    have h1 : (map >>> i) / 2 ^ u % 2 = 1 := by omega
    have h2 : map.testBit (i + u) = true := by
      rw [← Nat.testBit_shiftRight, Nat.testBit_to_div_mod]
      simpa using h1
    refine h (i + u) ⟨h2, ?_⟩
    rw [mask_testBit, decide_eq_true_eq]
    omega
  · intro h k hk
    obtain ⟨hx, hy⟩ := hk
    rw [mask_testBit, decide_eq_true_eq] at hy
    have hu := (mod_two_pow_eq_zero_iff _ _).mp h (k - i) (by omega)
    have hbit : (map >>> i).testBit (k - i) = true := by
      rw [Nat.testBit_shiftRight]
      have hik : i + (k - i) = k := by omega
      rw [hik]; exact hx
    rw [Nat.testBit_to_div_mod, decide_eq_true_eq] at hbit
    omega

lemma bit_one_not_fits (x blocks : Nat) (hb : 1 ≤ blocks) (h : x % 2 = 1) :
    x % 2 ^ blocks ≠ 0 := by
  intro hfit
  have := (mod_two_pow_eq_zero_iff blocks x).mp hfit 0 (by omega)
  simp at this
  omega

/-! ### Correctness of the fueled inner loops -/

lemma trailingOnes_ones :
    ∀ fuel m j, m < 2 ^ fuel → j < trailingOnes fuel m → m / 2 ^ j % 2 = 1 := by
  intro fuel
  induction fuel with
  | zero => intro m j hm hj; simp [trailingOnes] at hj
  | succ fuel ih =>
    intro m j hm hj
    unfold trailingOnes at hj
    by_cases h2 : m % 2 = 1
    · rw [if_pos h2] at hj
      cases j with
      | zero => simpa using h2
      | succ j =>
        have hm2 : m / 2 < 2 ^ fuel := by
          rw [pow_succ'] at hm; omega
        rw [pow_succ', ← Nat.div_div_eq_div_mul]
        exact ih (m / 2) j hm2 (by omega)
    · rw [if_neg h2] at hj; omega

lemma trailingOnes_stop :
    ∀ fuel m, m < 2 ^ fuel → m / 2 ^ (trailingOnes fuel m) % 2 = 0 := by
  intro fuel
  induction fuel with
  | zero =>
    intro m hm
    have hm0 : m = 0 := by simpa using hm
    simp [trailingOnes, hm0]
  | succ fuel ih =>
    intro m hm
    unfold trailingOnes
    by_cases h2 : m % 2 = 1
    · rw [if_pos h2, pow_succ', ← Nat.div_div_eq_div_mul]
      exact ih (m / 2) (by rw [pow_succ'] at hm; omega)
    · rw [if_neg h2]; simpa using (by omega : m % 2 = 0)

lemma countZeros_ge : ∀ fuel m zeros blocks, zeros ≤ countZeros fuel m zeros blocks := by
  intro fuel
  induction fuel with
  | zero => intro m zeros blocks; simp [countZeros]
  | succ fuel ih =>
    intro m zeros blocks
    unfold countZeros
    by_cases h : zeros < blocks ∧ m % 2 = 0
    · rw [if_pos h]
      exact le_trans (Nat.le_succ zeros) (ih (m / 2) (zeros + 1) blocks)
    · rw [if_neg h]

lemma countZeros_le :
    ∀ fuel m zeros blocks, zeros ≤ blocks → countZeros fuel m zeros blocks ≤ blocks := by
  intro fuel
  induction fuel with
  | zero => intro m zeros blocks h; simpa [countZeros] using h
  | succ fuel ih =>
    intro m zeros blocks h
    unfold countZeros
    by_cases hc : zeros < blocks ∧ m % 2 = 0
    · rw [if_pos hc]; exact ih (m / 2) (zeros + 1) blocks (by omega)
    · rw [if_neg hc]; exact h

lemma countZeros_zeros :
    ∀ fuel m zeros blocks j,
      j < countZeros fuel m zeros blocks - zeros → m / 2 ^ j % 2 = 0 := by
  intro fuel
  induction fuel with
  | zero => intro m zeros blocks j hj; simp [countZeros] at hj
  | succ fuel ih =>
    intro m zeros blocks j hj
    unfold countZeros at hj
    by_cases hc : zeros < blocks ∧ m % 2 = 0
    · rw [if_pos hc] at hj
      have hge := countZeros_ge fuel (m / 2) (zeros + 1) blocks
      cases j with
      | zero => simpa using hc.2
      | succ j =>
        rw [pow_succ', ← Nat.div_div_eq_div_mul]
        exact ih (m / 2) (zeros + 1) blocks j (by omega)
    · rw [if_neg hc] at hj; omega

lemma countZeros_stop :
    ∀ fuel m zeros blocks,
      blocks - zeros ≤ fuel → countZeros fuel m zeros blocks < blocks →
      m / 2 ^ (countZeros fuel m zeros blocks - zeros) % 2 = 1 := by
  intro fuel
  induction fuel with
  | zero =>
    intro m zeros blocks hfuel hlt
    simp only [countZeros] at hlt ⊢
    omega
  | succ fuel ih =>
    intro m zeros blocks hfuel hlt
    unfold countZeros at hlt ⊢
    by_cases hc : zeros < blocks ∧ m % 2 = 0
    · rw [if_pos hc] at hlt ⊢
      have hge := countZeros_ge fuel (m / 2) (zeros + 1) blocks
      have hrec := ih (m / 2) (zeros + 1) blocks (by omega) hlt
      have hco : countZeros fuel (m / 2) (zeros + 1) blocks - zeros
          = (countZeros fuel (m / 2) (zeros + 1) blocks - (zeros + 1)) + 1 := by omega
      rw [hco, pow_succ', ← Nat.div_div_eq_div_mul]
      exact hrec
    · rw [if_neg hc] at hlt ⊢
      have h2 : m % 2 = 1 := by
        rcases Nat.mod_two_eq_zero_or_one m with h | h
        · exact absurd ⟨hlt, h⟩ hc
        · exact h
      simpa using h2

/-! ### Correctness of the outer search loop -/

lemma shiftRight_lt_bound (map j : Nat) (h : map < UINTPTR_BOUND) :
    map >>> j < UINTPTR_BOUND := by
  rw [Nat.shiftRight_eq_div_pow]
  exact lt_of_le_of_lt (Nat.div_le_self _ _) h

lemma searchLoop_spec :
    ∀ fuel map blocks bitidx bitidx_max,
      1 ≤ blocks → blocks ≤ MI_REGION_MAP_BITS → map < UINTPTR_BOUND →
      bitidx_max + 1 ≤ fuel + bitidx →
      bitidx ≤ searchLoop fuel (map >>> bitidx) bitidx blocks bitidx_max ∧
      (∀ j, bitidx ≤ j → j < searchLoop fuel (map >>> bitidx) bitidx blocks bitidx_max →
          (map >>> j) % 2 ^ blocks ≠ 0) ∧
      (searchLoop fuel (map >>> bitidx) bitidx blocks bitidx_max ≤ bitidx_max →
          (map >>> (searchLoop fuel (map >>> bitidx) bitidx blocks bitidx_max))
            % 2 ^ blocks = 0) := by
  intro fuel
  induction fuel with
  | zero =>
    intro map blocks bitidx bitidx_max hb1 hb2 hmap hfuel
    refine ⟨le_refl _, fun j h1 h2 => absurd (lt_of_le_of_lt h1 h2) (lt_irrefl _), ?_⟩
    intro hle
    exact absurd hle (by simp only [searchLoop]; omega)
  | succ fuel ih =>
    intro map blocks bitidx bitidx_max hb1 hb2 hmap hfuel
    have hm : map >>> bitidx < 2 ^ MI_REGION_MAP_BITS := by
      rw [two_pow_bits_eq]; exact shiftRight_lt_bound map bitidx hmap
    set m := map >>> bitidx with hm_def
    set k := trailingOnes MI_REGION_MAP_BITS m with hk_def
    set m1 := m >>> k with hm1_def
    set zeros := countZeros MI_REGION_MAP_BITS (m1 / 2) 1 blocks with hz_def
    have hr : searchLoop (fuel + 1) m bitidx blocks bitidx_max =
        (if zeros = blocks then bitidx + k
         else if bitidx + k + zeros ≤ bitidx_max then
           searchLoop fuel (m1 >>> zeros) (bitidx + k + zeros) blocks bitidx_max
         else bitidx + k + zeros) := rfl
    -- positions skipped in the ones zone carry a set bit, hence cannot fit
    have hones : ∀ j, bitidx ≤ j → j < bitidx + k → (map >>> j) % 2 ^ blocks ≠ 0 := by
      intro j h1 h2
      have hone : m / 2 ^ (j - bitidx) % 2 = 1 :=
        trailingOnes_ones MI_REGION_MAP_BITS m (j - bitidx) hm (by omega)
      have hshift : m / 2 ^ (j - bitidx) = map >>> j := by
        rw [hm_def, ← Nat.shiftRight_eq_div_pow, ← Nat.shiftRight_add]
        have : bitidx + (j - bitidx) = j := by omega
        rw [this]
      rw [hshift] at hone
      exact bit_one_not_fits _ blocks hb1 hone
    have hm1map : m1 = map >>> (bitidx + k) := by
      rw [hm1_def, hm_def, ← Nat.shiftRight_add]
    have hm1even : m1 % 2 = 0 := by
      have := trailingOnes_stop MI_REGION_MAP_BITS m hm
      rw [← Nat.shiftRight_eq_div_pow] at this
      rw [hm1_def, hk_def]
      exact this
    have hz1 : 1 ≤ zeros := countZeros_ge MI_REGION_MAP_BITS (m1 / 2) 1 blocks
    have hzb : zeros ≤ blocks := countZeros_le MI_REGION_MAP_BITS (m1 / 2) 1 blocks hb1
    by_cases hcase : zeros = blocks
    · -- a run of `blocks` zero bits starts at bitidx + k
      rw [hr, if_pos hcase]
      have hfits : (map >>> (bitidx + k)) % 2 ^ blocks = 0 := by
        rw [← hm1map, mod_two_pow_eq_zero_iff]
        intro u hu
        cases u with
        | zero => simpa using hm1even
        | succ u =>
          rw [pow_succ', ← Nat.div_div_eq_div_mul]
          exact countZeros_zeros MI_REGION_MAP_BITS (m1 / 2) 1 blocks u (by omega)
      exact ⟨Nat.le_add_right _ _, fun j h1 h2 => hones j h1 h2, fun _ => hfits⟩
    · -- the zero run is too short: a one bit sits at bitidx + k + zeros
      have hzlt : zeros < blocks := lt_of_le_of_ne hzb hcase
      have hbit1 : (map >>> (bitidx + k + zeros)) % 2 = 1 := by
        have hstop := countZeros_stop MI_REGION_MAP_BITS (m1 / 2) 1 blocks
          (by omega) hzlt
        have hco : m1 / 2 / 2 ^ (zeros - 1) = m1 / 2 ^ zeros := by
          rw [Nat.div_div_eq_div_mul, ← pow_succ']
          have : zeros - 1 + 1 = zeros := by omega
          rw [this]
        rw [hco] at hstop
        have hsh : m1 / 2 ^ zeros = map >>> (bitidx + k + zeros) := by
          rw [hm1map, ← Nat.shiftRight_eq_div_pow, ← Nat.shiftRight_add]
        rw [hsh] at hstop
        exact hstop
      have hshort : ∀ j, bitidx + k ≤ j → j < bitidx + k + zeros →
          (map >>> j) % 2 ^ blocks ≠ 0 := by
        intro j h1 h2 hfit
        have hu := (mod_two_pow_eq_zero_iff blocks (map >>> j)).mp hfit
          (bitidx + k + zeros - j) (by omega)
        have hsh : map >>> j / 2 ^ (bitidx + k + zeros - j)
            = map >>> (bitidx + k + zeros) := by
          rw [← Nat.shiftRight_eq_div_pow, ← Nat.shiftRight_add]
          have : j + (bitidx + k + zeros - j) = bitidx + k + zeros := by omega
          rw [this]
        rw [hsh] at hu
        omega
      have hnofitlow : ∀ j, bitidx ≤ j → j < bitidx + k + zeros →
          (map >>> j) % 2 ^ blocks ≠ 0 := by
        intro j h1 h2
        by_cases hj : j < bitidx + k
        · exact hones j h1 hj
        · exact hshort j (by omega) h2
      by_cases hnext : bitidx + k + zeros ≤ bitidx_max
      · -- continue the walk after the too-short run
        rw [hr, if_neg hcase, if_pos hnext]
        have hmz : m1 >>> zeros = map >>> (bitidx + k + zeros) := by
          rw [hm1map, ← Nat.shiftRight_add]
        rw [hmz]
        obtain ⟨ih1, ih2, ih3⟩ := ih map blocks (bitidx + k + zeros) bitidx_max
          hb1 hb2 hmap (by omega)
        refine ⟨by omega, ?_, ih3⟩
        intro j h1 h2
        by_cases hj : j < bitidx + k + zeros
        · exact hnofitlow j h1 hj
        · exact ih2 j (by omega) h2
      · -- walked past bitidx_max: the loop exits with no fit
        rw [hr, if_neg hcase, if_neg hnext]
        exact ⟨by omega, fun j h1 h2 => hnofitlow j h1 h2, fun h => absurd h (by omega)⟩

/-- Specification of the claim search when it finds a run: the returned
index is in range, the run is free, and every lower index is not. -/
lemma mi_region_search_some (map blocks i : Nat)
    (hb1 : 1 ≤ blocks) (hb2 : blocks ≤ MI_REGION_MAP_BITS) (hmap : map < UINTPTR_BOUND)
    (h : mi_region_search map blocks = some i) :
    i + blocks ≤ MI_REGION_MAP_BITS ∧ (map >>> i) % 2 ^ blocks = 0 ∧
      ∀ j, j < i → (map >>> j) % 2 ^ blocks ≠ 0 := by
  unfold mi_region_search at h
  simp only at h
  obtain ⟨h1, h2, h3⟩ := searchLoop_spec (MI_REGION_MAP_BITS + 1) map blocks 0
    (MI_REGION_MAP_BITS - blocks) hb1 hb2 hmap (by omega)
  rw [Nat.shiftRight_zero] at h1 h2 h3
  by_cases hgt : searchLoop (MI_REGION_MAP_BITS + 1) map 0 blocks
      (MI_REGION_MAP_BITS - blocks) > MI_REGION_MAP_BITS - blocks
  · rw [if_pos hgt] at h; exact absurd h (by simp)
  · rw [if_neg hgt] at h
    have hi : searchLoop (MI_REGION_MAP_BITS + 1) map 0 blocks
        (MI_REGION_MAP_BITS - blocks) = i := by
      exact Option.some.inj h
    rw [hi] at h2 h3 hgt
    exact ⟨by omega, h3 (by omega), fun j hj => h2 j (Nat.zero_le j) hj⟩

/-- Specification of the claim search when it reports no fit: no index
in range starts a free run of the required length. -/
lemma mi_region_search_none (map blocks : Nat)
    (hb1 : 1 ≤ blocks) (hb2 : blocks ≤ MI_REGION_MAP_BITS) (hmap : map < UINTPTR_BOUND)
    (h : mi_region_search map blocks = none) :
    ∀ j, j + blocks ≤ MI_REGION_MAP_BITS → (map >>> j) % 2 ^ blocks ≠ 0 := by
  unfold mi_region_search at h
  simp only at h
  obtain ⟨h1, h2, h3⟩ := searchLoop_spec (MI_REGION_MAP_BITS + 1) map blocks 0
    (MI_REGION_MAP_BITS - blocks) hb1 hb2 hmap (by omega)
  rw [Nat.shiftRight_zero] at h1 h2 h3
  by_cases hgt : searchLoop (MI_REGION_MAP_BITS + 1) map 0 blocks
      (MI_REGION_MAP_BITS - blocks) > MI_REGION_MAP_BITS - blocks
  · intro j hj
    exact h2 j (Nat.zero_le j) (by omega)
  · rw [if_neg hgt] at h; exact absurd h (by simp)

/-! ### Claim/unclaim word algebra -/

lemma testBit_bound_false (x k : Nat) (hx : x < UINTPTR_BOUND) (hk : 64 ≤ k) :
    x.testBit k = false := by
  apply Nat.testBit_lt_two_pow
  exact lt_of_lt_of_le hx (Nat.pow_le_pow_right (by norm_num) hk)

/-- Claiming a free run and then clearing its mask restores the map word:
`(m | mask) & ~mask = m` for disjoint word-sized `m` and `mask`. -/
lemma lor_and_cnot (m x : Nat) (hm : m < UINTPTR_BOUND) (hx : x < UINTPTR_BOUND)
    (hdisj : m &&& x = 0) : (m ||| x) &&& cnot64 x = m := by
  apply Nat.eq_of_testBit_eq
  intro k
  have hdk := (land_eq_zero_iff m x).mp hdisj k
  rw [Nat.testBit_and, Nat.testBit_or]
  unfold cnot64 MI_REGION_MAP_FULL SIZE_MAX
  rw [Nat.testBit_xor, Nat.testBit_two_pow_sub_one]
  by_cases hk : k < 64
  · simp only [hk, decide_eq_true_eq, decide_True]
    cases hxk : x.testBit k
    · simp
    · have hmk : m.testBit k = false := by
        cases hmk : m.testBit k
        · rfl
        · exact absurd ⟨hmk, hxk⟩ hdk
      simp [hmk]
  · have hxk : x.testBit k = false := testBit_bound_false x k hx (by omega)
    have hmk : m.testBit k = false := testBit_bound_false m k hm (by omega)
    simp [hxk, hmk, hk]

lemma mask_shift0 (blocks bitidx : Nat) :
    mi_region_block_mask blocks 0 <<< bitidx = mi_region_block_mask blocks bitidx := by
  unfold mi_region_block_mask
  rw [Nat.shiftLeft_zero]

lemma lor_lt_bound (m x : Nat) (hm : m < UINTPTR_BOUND) (hx : x < UINTPTR_BOUND) :
    m ||| x < UINTPTR_BOUND := Nat.or_lt_two_pow hm hx

lemma land_lt_bound (m x : Nat) (hm : m < UINTPTR_BOUND) : m &&& x < UINTPTR_BOUND :=
  lt_of_le_of_lt (Nat.and_le_left) hm

/-! ### Rounding arithmetic -/

lemma le_align_up (sz a : Nat) (ha : 0 < a) : sz ≤ _mi_align_up sz a := by
  unfold _mi_align_up
  have h1 : a * ((sz + a - 1) / a) + (sz + a - 1) % a = sz + a - 1 :=
    Nat.div_add_mod _ _
  have h2 : (sz + a - 1) % a < a := Nat.mod_lt _ ha
  have h3 : sz ≤ a * ((sz + a - 1) / a) := by omega
  rw [Nat.mul_comm] at h3
  exact h3

lemma align_up_le (sz M a : Nat) (ha : 0 < a) (hdvd : a ∣ M) (h : sz ≤ M) :
    _mi_align_up sz a ≤ M := by
  unfold _mi_align_up
  obtain ⟨c, rfl⟩ := hdvd
  have h1 : sz + a - 1 < a * (c + 1) := by
    rw [Nat.mul_succ]; omega
  have h2 : (sz + a - 1) / a < c + 1 := by
    rw [Nat.div_lt_iff_lt_mul ha, Nat.mul_comm]
    exact h1
  calc (sz + a - 1) / a * a ≤ c * a := Nat.mul_le_mul_right a (by omega)
    _ = a * c := Nat.mul_comm _ _

lemma align_up_pos (sz a : Nat) (ha : 0 < a) (hsz : 0 < sz) :
    0 < _mi_align_up sz a := lt_of_lt_of_le hsz (le_align_up sz a ha)

lemma block_count_mono (x y : Nat) (h : x ≤ y) :
    mi_region_block_count x ≤ mi_region_block_count y :=
  Nat.div_le_div_right (by omega)

lemma block_count_max_alloc :
    mi_region_block_count MI_REGION_MAX_ALLOC_SIZE = MI_REGION_MAP_BITS / 4 := rfl

lemma block_count_pos (size : Nat) (h : 0 < size) :
    1 ≤ mi_region_block_count size := by
  unfold mi_region_block_count MI_SEGMENT_SIZE
  rw [Nat.le_div_iff_mul_le (by norm_num)]
  omega

lemma seg_dvd_max_alloc : MI_SEGMENT_SIZE ∣ MI_REGION_MAX_ALLOC_SIZE :=
  ⟨16, by norm_num [MI_SEGMENT_SIZE, MI_REGION_MAX_ALLOC_SIZE,
    MI_REGION_MAP_BITS, MI_INTPTR_SIZE]⟩

/-- Bounds on the block count computed on the region path of
`_mi_mem_alloc_aligned` (after the page-size round-up). -/
lemma blocks_in_range (env : Env) (size : Nat) (hp : 0 < env.page_size)
    (hd : env.page_size ∣ MI_SEGMENT_SIZE) (h0 : 0 < size)
    (hmax : size ≤ MI_REGION_MAX_ALLOC_SIZE) :
    1 ≤ mi_region_block_count (_mi_align_up size env.page_size) ∧
      mi_region_block_count (_mi_align_up size env.page_size)
        ≤ MI_REGION_MAP_BITS / 4 := by
  have h1 : size ≤ _mi_align_up size env.page_size := le_align_up _ _ hp
  have h2 : _mi_align_up size env.page_size ≤ MI_REGION_MAX_ALLOC_SIZE :=
    align_up_le _ _ _ hp (dvd_trans hd seg_dvd_max_alloc) hmax
  refine ⟨block_count_pos _ (by omega), ?_⟩
  calc mi_region_block_count (_mi_align_up size env.page_size)
      ≤ mi_region_block_count MI_REGION_MAX_ALLOC_SIZE := block_count_mono _ _ h2
    _ = MI_REGION_MAP_BITS / 4 := block_count_max_alloc

lemma map_bits_div_le : MI_REGION_MAP_BITS / 4 ≤ MI_REGION_MAP_BITS := by
  norm_num [MI_REGION_MAP_BITS, MI_INTPTR_SIZE]

/-! ### Characterizations of the block-level routines -/

/-- All region map words are machine words. -/
def MapsWF (s : GlobalState) : Prop := ∀ r, (s.regions r).map < UINTPTR_BOUND

lemma setRegion_regions (s : GlobalState) (idx : Nat) (reg : MemRegion) (r : Nat) :
    (setRegion s idx reg).regions r = if r = idx then reg else s.regions r := rfl

lemma commit_blocks_err_eq (env : Env) (s : GlobalState)
    (idx bitidx blocks size : Nat) (commit : Bool)
    (hstart : (s.regions idx).start = none)
    (hos : env.os_alloc MI_REGION_SIZE MI_SEGMENT_ALIGN env.eager_commit = none) :
    mi_region_commit_blocks env s idx bitidx blocks size commit =
      (setRegion s idx { s.regions idx with
         map := (s.regions idx).map &&& cnot64 (mi_region_block_mask blocks bitidx) },
       [OsEvent.osAlloc MI_REGION_SIZE MI_SEGMENT_ALIGN env.eager_commit,
        OsEvent.mapWrite idx
          ((s.regions idx).map &&& cnot64 (mi_region_block_mask blocks bitidx))],
       BlockResult.err) := by
  simp only [mi_region_commit_blocks, hstart, hos]

lemma commit_blocks_have_start_eq (env : Env) (s : GlobalState)
    (idx bitidx blocks size : Nat) (commit : Bool) (a : Nat)
    (hstart : (s.regions idx).start = some a) :
    mi_region_commit_blocks env s idx bitidx blocks size commit =
      ({ s with region_next_idx := idx },
       (if commit ∧ ¬ env.eager_commit then
          [OsEvent.osCommit (a + bitidx * MI_SEGMENT_SIZE) (mi_good_commit_size env size)
            (env.os_commit_ok (a + bitidx * MI_SEGMENT_SIZE) (mi_good_commit_size env size))]
        else []),
       BlockResult.ok (a + bitidx * MI_SEGMENT_SIZE)
         (idx * MI_REGION_MAP_BITS + bitidx)) := by
  simp only [mi_region_commit_blocks, hstart, mi_region_commit_finish, List.nil_append]

lemma commit_blocks_fresh_eq (env : Env) (s : GlobalState)
    (idx bitidx blocks size : Nat) (commit : Bool) (a : Nat)
    (hstart : (s.regions idx).start = none)
    (hos : env.os_alloc MI_REGION_SIZE MI_SEGMENT_ALIGN env.eager_commit = some a) :
    mi_region_commit_blocks env s idx bitidx blocks size commit =
      ({ regions := fun r => if r = idx then { s.regions idx with start := some a }
                             else s.regions r,
         regions_count := s.regions_count + 1,
         region_next_idx := idx },
       OsEvent.osAlloc MI_REGION_SIZE MI_SEGMENT_ALIGN env.eager_commit ::
         (if commit ∧ ¬ env.eager_commit then
            [OsEvent.osCommit (a + bitidx * MI_SEGMENT_SIZE) (mi_good_commit_size env size)
              (env.os_commit_ok (a + bitidx * MI_SEGMENT_SIZE)
                (mi_good_commit_size env size))]
          else []),
       BlockResult.ok (a + bitidx * MI_SEGMENT_SIZE)
         (idx * MI_REGION_MAP_BITS + bitidx)) := by
  simp only [mi_region_commit_blocks, hstart, hos, mi_region_commit_finish, setRegion,
    List.singleton_append, List.cons_append, List.nil_append]
  split <;> rfl

lemma alloc_blocks_nofit_eq (env : Env) (s : GlobalState)
    (idx blocks size : Nat) (commit : Bool)
    (h : mi_region_search (s.regions idx).map blocks = none) :
    mi_region_alloc_blocks env s idx blocks size commit = (s, [], BlockResult.nofit) := by
  simp only [mi_region_alloc_blocks, h]

lemma alloc_blocks_claim_eq (env : Env) (s : GlobalState)
    (idx blocks size : Nat) (commit : Bool) (bitidx : Nat)
    (h : mi_region_search (s.regions idx).map blocks = some bitidx) :
    mi_region_alloc_blocks env s idx blocks size commit =
      ((mi_region_commit_blocks env
          (setRegion s idx { s.regions idx with
            map := (s.regions idx).map ||| (mi_region_block_mask blocks 0 <<< bitidx) })
          idx bitidx blocks size commit).1,
       OsEvent.mapWrite idx
           ((s.regions idx).map ||| (mi_region_block_mask blocks 0 <<< bitidx)) ::
         (mi_region_commit_blocks env
            (setRegion s idx { s.regions idx with
              map := (s.regions idx).map ||| (mi_region_block_mask blocks 0 <<< bitidx) })
            idx bitidx blocks size commit).2.1,
       (mi_region_commit_blocks env
          (setRegion s idx { s.regions idx with
            map := (s.regions idx).map ||| (mi_region_block_mask blocks 0 <<< bitidx) })
          idx bitidx blocks size commit).2.2) := by
  simp only [mi_region_alloc_blocks, h]

lemma try_alloc_full_eq (env : Env) (s : GlobalState)
    (idx blocks size : Nat) (commit : Bool)
    (h : (s.regions idx).map = MI_REGION_MAP_FULL) :
    mi_region_try_alloc_blocks env s idx blocks size commit = (s, [], BlockResult.nofit) := by
  simp only [mi_region_try_alloc_blocks, h, ne_eq, not_true_eq_false, if_false]

lemma try_alloc_open_eq (env : Env) (s : GlobalState)
    (idx blocks size : Nat) (commit : Bool)
    (h : (s.regions idx).map ≠ MI_REGION_MAP_FULL) :
    mi_region_try_alloc_blocks env s idx blocks size commit =
      mi_region_alloc_blocks env s idx blocks size commit := by
  simp only [mi_region_try_alloc_blocks, h, ne_eq, not_false_eq_true, if_true]

lemma commit_blocks_not_nofit (env : Env) (s : GlobalState)
    (idx bitidx blocks size : Nat) (commit : Bool) :
    (mi_region_commit_blocks env s idx bitidx blocks size commit).2.2
      ≠ BlockResult.nofit := by
  rcases hstart : (s.regions idx).start with _ | a
  · rcases hos : env.os_alloc MI_REGION_SIZE MI_SEGMENT_ALIGN env.eager_commit with _ | a
    · rw [commit_blocks_err_eq env s idx bitidx blocks size commit hstart hos]
      simp
    · rw [commit_blocks_fresh_eq env s idx bitidx blocks size commit a hstart hos]
      simp
  · rw [commit_blocks_have_start_eq env s idx bitidx blocks size commit a hstart]
    simp

/-- A `nofit` result from mi_region_try_alloc_blocks leaves the state
untouched and performs no OS call. -/
lemma try_nofit_state (env : Env) (s : GlobalState)
    (idx blocks size : Nat) (commit : Bool) (s1 : GlobalState) (tr1 : List OsEvent)
    (h : mi_region_try_alloc_blocks env s idx blocks size commit
          = (s1, tr1, BlockResult.nofit)) :
    s1 = s ∧ tr1 = [] := by
  by_cases hfull : (s.regions idx).map = MI_REGION_MAP_FULL
  · rw [try_alloc_full_eq env s idx blocks size commit hfull] at h
    exact ⟨congrArg (fun t => t.1) h |>.symm, congrArg (fun t => t.2.1) h |>.symm⟩
  · rw [try_alloc_open_eq env s idx blocks size commit hfull] at h
    rcases hsearch : mi_region_search (s.regions idx).map blocks with _ | bitidx
    · rw [alloc_blocks_nofit_eq env s idx blocks size commit hsearch] at h
      exact ⟨congrArg (fun t => t.1) h |>.symm, congrArg (fun t => t.2.1) h |>.symm⟩
    · rw [alloc_blocks_claim_eq env s idx blocks size commit bitidx hsearch] at h
      have hres := congrArg (fun t => t.2.2) h
      simp only at hres
      exact absurd hres (commit_blocks_not_nofit env _ idx bitidx blocks size commit)

/-- Facts provided by a successful claim search on a word-sized map. -/
lemma search_claim_facts (s : GlobalState) (idx blocks bitidx : Nat)
    (hwf : MapsWF s) (hb1 : 1 ≤ blocks) (hb2 : blocks ≤ MI_REGION_MAP_BITS)
    (hsearch : mi_region_search (s.regions idx).map blocks = some bitidx) :
    bitidx + blocks ≤ MI_REGION_MAP_BITS ∧
      (s.regions idx).map &&& mi_region_block_mask blocks bitidx = 0 := by
  obtain ⟨h1, h2, _⟩ := mi_region_search_some ((s.regions idx).map) blocks bitidx
    hb1 hb2 (hwf idx) hsearch
  exact ⟨by omega, (mask_land_zero_iff _ _ _).mpr h2⟩

/-- An OOM result from mi_region_try_alloc_blocks rolls the claim back:
every region map word is left as it was. -/
lemma try_err_maps (env : Env) (s : GlobalState)
    (idx blocks size : Nat) (commit : Bool) (s1 : GlobalState) (tr1 : List OsEvent)
    (hwf : MapsWF s) (hb1 : 1 ≤ blocks) (hb2 : blocks ≤ MI_REGION_MAP_BITS)
    (h : mi_region_try_alloc_blocks env s idx blocks size commit
          = (s1, tr1, BlockResult.err)) :
    ∀ r, (s1.regions r).map = (s.regions r).map := by
  by_cases hfull : (s.regions idx).map = MI_REGION_MAP_FULL
  · rw [try_alloc_full_eq env s idx blocks size commit hfull] at h
    exact absurd (congrArg (fun t => t.2.2) h) (by simp)
  · rw [try_alloc_open_eq env s idx blocks size commit hfull] at h
    rcases hsearch : mi_region_search (s.regions idx).map blocks with _ | bitidx
    · rw [alloc_blocks_nofit_eq env s idx blocks size commit hsearch] at h
      exact absurd (congrArg (fun t => t.2.2) h) (by simp)
    · rw [alloc_blocks_claim_eq env s idx blocks size commit bitidx hsearch] at h
      obtain ⟨hrange, hdisj⟩ :=
        search_claim_facts s idx blocks bitidx hwf hb1 hb2 hsearch
      set sc := setRegion s idx { s.regions idx with
        map := (s.regions idx).map ||| (mi_region_block_mask blocks 0 <<< bitidx) }
        with hsc
      rcases hstart : (sc.regions idx).start with _ | a
      · rcases hos : env.os_alloc MI_REGION_SIZE MI_SEGMENT_ALIGN env.eager_commit
          with _ | a
        · rw [commit_blocks_err_eq env sc idx bitidx blocks size commit hstart hos] at h
          have hs1 := congrArg (fun t => t.1) h
          simp only at hs1
          intro r
          rw [← hs1]
          by_cases hri : r = idx
          · subst hri
            simp only [setRegion_regions, if_pos rfl, hsc, mask_shift0]
            exact lor_and_cnot ((s.regions r).map) (mi_region_block_mask blocks bitidx)
              (hwf r) (mask_lt blocks bitidx (by omega)) hdisj
          · simp only [setRegion_regions, if_neg hri, hsc]
        · rw [commit_blocks_fresh_eq env sc idx bitidx blocks size commit a hstart hos] at h
          exact absurd (congrArg (fun t => t.2.2) h) (by simp)
      · rw [commit_blocks_have_start_eq env sc idx bitidx blocks size commit a hstart] at h
        exact absurd (congrArg (fun t => t.2.2) h) (by simp)

/-- Characterization of a successful claim by mi_region_try_alloc_blocks:
the returned id encodes the claimed bit range, the pointer is the block
address inside the region, exactly the mask bits get set, and no other
region is touched. -/
lemma try_ok_spec (env : Env) (s : GlobalState)
    (idx blocks size : Nat) (commit : Bool) (s1 : GlobalState) (tr1 : List OsEvent)
    (p id : Nat)
    (hwf : MapsWF s) (hb1 : 1 ≤ blocks) (hb2 : blocks ≤ MI_REGION_MAP_BITS)
    (h : mi_region_try_alloc_blocks env s idx blocks size commit
          = (s1, tr1, BlockResult.ok p id)) :
    ∃ bitidx a,
      bitidx + blocks ≤ MI_REGION_MAP_BITS ∧
      id = idx * MI_REGION_MAP_BITS + bitidx ∧
      p = a + bitidx * MI_SEGMENT_SIZE ∧
      (s1.regions idx).start = some a ∧
      (s.regions idx).map &&& mi_region_block_mask blocks bitidx = 0 ∧
      (s1.regions idx).map
        = (s.regions idx).map ||| mi_region_block_mask blocks bitidx ∧
      (∀ r, r ≠ idx → s1.regions r = s.regions r) := by
  by_cases hfull : (s.regions idx).map = MI_REGION_MAP_FULL
  · rw [try_alloc_full_eq env s idx blocks size commit hfull] at h
    exact absurd (congrArg (fun t => t.2.2) h) (by simp)
  · rw [try_alloc_open_eq env s idx blocks size commit hfull] at h
    rcases hsearch : mi_region_search (s.regions idx).map blocks with _ | bitidx
    · rw [alloc_blocks_nofit_eq env s idx blocks size commit hsearch] at h
      exact absurd (congrArg (fun t => t.2.2) h) (by simp)
    · rw [alloc_blocks_claim_eq env s idx blocks size commit bitidx hsearch] at h
      obtain ⟨hrange, hdisj⟩ :=
        search_claim_facts s idx blocks bitidx hwf hb1 hb2 hsearch
      set sc := setRegion s idx { s.regions idx with
        map := (s.regions idx).map ||| (mi_region_block_mask blocks 0 <<< bitidx) }
        with hsc
      have hscmap : (sc.regions idx).map
          = (s.regions idx).map ||| mi_region_block_mask blocks bitidx := by
        simp [hsc, setRegion_regions, mask_shift0]
      have hscother : ∀ r, r ≠ idx → sc.regions r = s.regions r := by
        intro r hr
        simp [hsc, setRegion_regions, hr]
      have hscstart : (sc.regions idx).start = (s.regions idx).start := by
        simp [hsc, setRegion_regions]
      rcases hstart : (sc.regions idx).start with _ | a
      · rcases hos : env.os_alloc MI_REGION_SIZE MI_SEGMENT_ALIGN env.eager_commit
          with _ | a
        · rw [commit_blocks_err_eq env sc idx bitidx blocks size commit hstart hos] at h
          exact absurd (congrArg (fun t => t.2.2) h) (by simp)
        · rw [commit_blocks_fresh_eq env sc idx bitidx blocks size commit a hstart hos] at h
          injection h with hstate h23
          injection h23 with htr hres
          injection hres with hpv hidv
          refine ⟨bitidx, a, hrange, hidv.symm, hpv.symm, ?_, hdisj, ?_, ?_⟩
          · rw [← hstate]; simp
          · rw [← hstate]
            simpa using hscmap
          · intro r hr
            rw [← hstate]
            simpa [hr] using hscother r hr
      · rw [commit_blocks_have_start_eq env sc idx bitidx blocks size commit a hstart] at h
        injection h with hstate h23
        injection h23 with htr hres
        injection hres with hpv hidv
        refine ⟨bitidx, a, hrange, hidv.symm, hpv.symm, ?_, hdisj, ?_, ?_⟩
        · rw [← hstate]; exact hstart
        · rw [← hstate]; exact hscmap
        · intro r hr
          rw [← hstate]; exact hscother r hr

/-! ### The region sweeps of _mi_mem_alloc_aligned -/

lemma sweep_nil_eq (env : Env) (blocks size : Nat) (commit : Bool) (s : GlobalState) :
    sweep env blocks size commit [] s = (s, [], BlockResult.nofit) := rfl

lemma sweep_cons_nofit_eq (env : Env) (blocks size : Nat) (commit : Bool)
    (idx : Nat) (rest : List Nat) (s s1 : GlobalState) (tr1 : List OsEvent)
    (h : mi_region_try_alloc_blocks env s idx blocks size commit
          = (s1, tr1, BlockResult.nofit)) :
    sweep env blocks size commit (idx :: rest) s =
      ((sweep env blocks size commit rest s1).1,
       tr1 ++ (sweep env blocks size commit rest s1).2.1,
       (sweep env blocks size commit rest s1).2.2) := by
  simp only [sweep, h]

lemma sweep_cons_err_eq (env : Env) (blocks size : Nat) (commit : Bool)
    (idx : Nat) (rest : List Nat) (s s1 : GlobalState) (tr1 : List OsEvent)
    (h : mi_region_try_alloc_blocks env s idx blocks size commit
          = (s1, tr1, BlockResult.err)) :
    sweep env blocks size commit (idx :: rest) s = (s1, tr1, BlockResult.err) := by
  simp only [sweep, h]

lemma sweep_cons_ok_eq (env : Env) (blocks size : Nat) (commit : Bool)
    (idx : Nat) (rest : List Nat) (s s1 : GlobalState) (tr1 : List OsEvent) (p id : Nat)
    (h : mi_region_try_alloc_blocks env s idx blocks size commit
          = (s1, tr1, BlockResult.ok p id)) :
    sweep env blocks size commit (idx :: rest) s = (s1, tr1, BlockResult.ok p id) := by
  simp only [sweep, h]

/-- A sweep that found no fit anywhere leaves the state untouched. -/
lemma sweep_nofit_state : ∀ (l : List Nat) (env : Env) (blocks size : Nat)
    (commit : Bool) (s s' : GlobalState) (tr : List OsEvent),
    sweep env blocks size commit l s = (s', tr, BlockResult.nofit) → s' = s := by
  intro l
  induction l with
  | nil =>
    intro env blocks size commit s s' tr h
    rw [sweep_nil_eq] at h
    injection h with h1 _
    exact h1.symm
  | cons idx rest ih =>
    intro env blocks size commit s s' tr h
    rcases htry : mi_region_try_alloc_blocks env s idx blocks size commit
      with ⟨s1, tr1, res⟩
    cases res with
    | nofit =>
      obtain ⟨hs1, -⟩ := try_nofit_state env s idx blocks size commit s1 tr1 htry
      rw [hs1] at htry
      rw [sweep_cons_nofit_eq env blocks size commit idx rest s s tr1 htry] at h
      rcases hs : sweep env blocks size commit rest s with ⟨s2, tr2, res2⟩
      rw [hs] at h
      injection h with h1 h23
      injection h23 with h2 h3
      simp only at h3
      subst h3
      rw [← h1]
      exact ih env blocks size commit s s2 tr2 hs
    | err =>
      rw [sweep_cons_err_eq env blocks size commit idx rest s s1 tr1 htry] at h
      injection h with h1 h23
      injection h23 with h2 h3
      exact BlockResult.noConfusion h3
    | ok p id =>
      rw [sweep_cons_ok_eq env blocks size commit idx rest s s1 tr1 p id htry] at h
      injection h with h1 h23
      injection h23 with h2 h3
      exact BlockResult.noConfusion h3

/-- A sweep that ends in a hard error has rolled back its claim: all
region map words are as before the sweep. -/
lemma sweep_err_maps : ∀ (l : List Nat) (env : Env) (blocks size : Nat)
    (commit : Bool) (s s' : GlobalState) (tr : List OsEvent),
    MapsWF s → 1 ≤ blocks → blocks ≤ MI_REGION_MAP_BITS →
    sweep env blocks size commit l s = (s', tr, BlockResult.err) →
    ∀ r, (s'.regions r).map = (s.regions r).map := by
  intro l
  induction l with
  | nil =>
    intro env blocks size commit s s' tr hwf hb1 hb2 h
    rw [sweep_nil_eq] at h
    injection h with h1 h23
    injection h23 with h2 h3
    exact BlockResult.noConfusion h3
  | cons idx rest ih =>
    intro env blocks size commit s s' tr hwf hb1 hb2 h
    rcases htry : mi_region_try_alloc_blocks env s idx blocks size commit
      with ⟨s1, tr1, res⟩
    cases res with
    | nofit =>
      obtain ⟨hs1, -⟩ := try_nofit_state env s idx blocks size commit s1 tr1 htry
      rw [hs1] at htry
      rw [sweep_cons_nofit_eq env blocks size commit idx rest s s tr1 htry] at h
      rcases hs : sweep env blocks size commit rest s with ⟨s2, tr2, res2⟩
      rw [hs] at h
      injection h with h1 h23
      injection h23 with h2 h3
      simp only at h3
      subst h3
      rw [← h1]
      exact ih env blocks size commit s s2 tr2 hwf hb1 hb2 hs
    | err =>
      rw [sweep_cons_err_eq env blocks size commit idx rest s s1 tr1 htry] at h
      injection h with h1 h23
      rw [← h1]
      exact try_err_maps env s idx blocks size commit s1 tr1 hwf hb1 hb2 htry
    | ok p id =>
      rw [sweep_cons_ok_eq env blocks size commit idx rest s s1 tr1 p id htry] at h
      injection h with h1 h23
      injection h23 with h2 h3
      exact BlockResult.noConfusion h3

/-- A successful sweep claimed one run in one probed region and touched
no other region. -/
lemma sweep_ok_spec : ∀ (l : List Nat) (env : Env) (blocks size : Nat)
    (commit : Bool) (s s' : GlobalState) (tr : List OsEvent) (p id : Nat),
    MapsWF s → 1 ≤ blocks → blocks ≤ MI_REGION_MAP_BITS →
    sweep env blocks size commit l s = (s', tr, BlockResult.ok p id) →
    ∃ idx bitidx a, idx ∈ l ∧
      bitidx + blocks ≤ MI_REGION_MAP_BITS ∧
      id = idx * MI_REGION_MAP_BITS + bitidx ∧
      p = a + bitidx * MI_SEGMENT_SIZE ∧
      (s'.regions idx).start = some a ∧
      (s.regions idx).map &&& mi_region_block_mask blocks bitidx = 0 ∧
      (s'.regions idx).map
        = (s.regions idx).map ||| mi_region_block_mask blocks bitidx ∧
      (∀ r, r ≠ idx → s'.regions r = s.regions r) := by
  intro l
  induction l with
  | nil =>
    intro env blocks size commit s s' tr p id hwf hb1 hb2 h
    rw [sweep_nil_eq] at h
    injection h with h1 h23
    injection h23 with h2 h3
    exact BlockResult.noConfusion h3
  | cons idx rest ih =>
    intro env blocks size commit s s' tr p id hwf hb1 hb2 h
    rcases htry : mi_region_try_alloc_blocks env s idx blocks size commit
      with ⟨s1, tr1, res⟩
    cases res with
    | nofit =>
      obtain ⟨hs1, -⟩ := try_nofit_state env s idx blocks size commit s1 tr1 htry
      rw [hs1] at htry
      rw [sweep_cons_nofit_eq env blocks size commit idx rest s s tr1 htry] at h
      rcases hs : sweep env blocks size commit rest s with ⟨s2, tr2, res2⟩
      rw [hs] at h
      injection h with h1 h23
      injection h23 with h2 h3
      simp only at h3
      subst h3
      obtain ⟨idx0, bitidx, a, hmem, hrest⟩ :=
        ih env blocks size commit s s2 tr2 p id hwf hb1 hb2 hs
      rw [← h1]
      exact ⟨idx0, bitidx, a, List.mem_cons_of_mem idx hmem, hrest⟩
    | err =>
      rw [sweep_cons_err_eq env blocks size commit idx rest s s1 tr1 htry] at h
      injection h with h1 h23
      injection h23 with h2 h3
      exact BlockResult.noConfusion h3
    | ok p0 id0 =>
      rw [sweep_cons_ok_eq env blocks size commit idx rest s s1 tr1 p0 id0 htry] at h
      injection h with h1 h23
      injection h23 with h2 h3
      injection h3 with hp0 hid0
      subst hp0; subst hid0; subst h1
      obtain ⟨bitidx, a, hrest⟩ :=
        try_ok_spec env s idx blocks size commit s1 tr1 p0 id0 hwf hb1 hb2 htry
      exact ⟨idx, bitidx, a, List.mem_cons_self idx rest, hrest⟩

/-! ### Case analysis of _mi_mem_alloc_aligned on the region path -/

lemma alloc_region_cases (env : Env) (s : GlobalState) (size alignment : Nat)
    (commit : Bool)
    (hbp : ¬ (size > MI_REGION_MAX_ALLOC_SIZE ∨ alignment > MI_SEGMENT_ALIGN)) :
    (∃ s1 tr1,
      sweep env (mi_region_block_count (_mi_align_up size env.page_size))
          (_mi_align_up size env.page_size) commit
          ((List.range s.regions_count).map
            (fun visited => (s.region_next_idx + visited) % s.regions_count)) s
        = (s1, tr1, BlockResult.err) ∧
      _mi_mem_alloc_aligned env s size alignment commit
        = ⟨s1, tr1, none, SIZE_MAX⟩) ∨
    (∃ s1 tr1 p id,
      sweep env (mi_region_block_count (_mi_align_up size env.page_size))
          (_mi_align_up size env.page_size) commit
          ((List.range s.regions_count).map
            (fun visited => (s.region_next_idx + visited) % s.regions_count)) s
        = (s1, tr1, BlockResult.ok p id) ∧
      _mi_mem_alloc_aligned env s size alignment commit
        = ⟨s1, tr1, some p, id⟩) ∨
    (∃ s1 tr1,
      sweep env (mi_region_block_count (_mi_align_up size env.page_size))
          (_mi_align_up size env.page_size) commit
          ((List.range s.regions_count).map
            (fun visited => (s.region_next_idx + visited) % s.regions_count)) s
        = (s1, tr1, BlockResult.nofit) ∧
      ((∃ s2 tr2,
        sweep env (mi_region_block_count (_mi_align_up size env.page_size))
            (_mi_align_up size env.page_size) commit
            ((List.range (MI_REGION_MAX - s.regions_count)).map
              (fun k => s.regions_count + k)) s1
          = (s2, tr2, BlockResult.err) ∧
        _mi_mem_alloc_aligned env s size alignment commit
          = ⟨s2, tr1 ++ tr2, none, SIZE_MAX⟩) ∨
      (∃ s2 tr2 p id,
        sweep env (mi_region_block_count (_mi_align_up size env.page_size))
            (_mi_align_up size env.page_size) commit
            ((List.range (MI_REGION_MAX - s.regions_count)).map
              (fun k => s.regions_count + k)) s1
          = (s2, tr2, BlockResult.ok p id) ∧
        _mi_mem_alloc_aligned env s size alignment commit
          = ⟨s2, tr1 ++ tr2, some p, id⟩) ∨
      (∃ s2 tr2,
        sweep env (mi_region_block_count (_mi_align_up size env.page_size))
            (_mi_align_up size env.page_size) commit
            ((List.range (MI_REGION_MAX - s.regions_count)).map
              (fun k => s.regions_count + k)) s1
          = (s2, tr2, BlockResult.nofit) ∧
        _mi_mem_alloc_aligned env s size alignment commit
          = ⟨s2, tr1 ++ tr2 ++ [OsEvent.osAlloc (_mi_align_up size env.page_size)
                alignment commit],
             env.os_alloc (_mi_align_up size env.page_size) alignment commit,
             SIZE_MAX⟩))) := by
  have halloc : _mi_mem_alloc_aligned env s size alignment commit =
      (match sweep env (mi_region_block_count (_mi_align_up size env.page_size))
          (_mi_align_up size env.page_size) commit
          ((List.range s.regions_count).map
            (fun visited => (s.region_next_idx + visited) % s.regions_count)) s with
      | (s1, tr1, BlockResult.err) => ⟨s1, tr1, none, SIZE_MAX⟩
      | (s1, tr1, BlockResult.ok p id) => ⟨s1, tr1, some p, id⟩
      | (s1, tr1, BlockResult.nofit) =>
        match sweep env (mi_region_block_count (_mi_align_up size env.page_size))
            (_mi_align_up size env.page_size) commit
            ((List.range (MI_REGION_MAX - s.regions_count)).map
              (fun k => s.regions_count + k)) s1 with
        | (s2, tr2, BlockResult.err) => ⟨s2, tr1 ++ tr2, none, SIZE_MAX⟩
        | (s2, tr2, BlockResult.ok p id) => ⟨s2, tr1 ++ tr2, some p, id⟩
        | (s2, tr2, BlockResult.nofit) =>
            ⟨s2, tr1 ++ tr2 ++ [OsEvent.osAlloc (_mi_align_up size env.page_size)
                alignment commit],
             env.os_alloc (_mi_align_up size env.page_size) alignment commit,
             SIZE_MAX⟩) := by
    unfold _mi_mem_alloc_aligned
    rw [if_neg hbp]
  split at halloc
  next s1 tr1 heq1 =>
    exact Or.inl ⟨s1, tr1, heq1, halloc⟩
  next s1 tr1 p id heq1 =>
    exact Or.inr (Or.inl ⟨s1, tr1, p, id, heq1, halloc⟩)
  next s1 tr1 heq1 =>
    refine Or.inr (Or.inr ⟨s1, tr1, heq1, ?_⟩)
    split at halloc
    next s2 tr2 heq2 => exact Or.inl ⟨s2, tr2, heq2, halloc⟩
    next s2 tr2 p id heq2 => exact Or.inr (Or.inl ⟨s2, tr2, p, id, heq2, halloc⟩)
    next s2 tr2 heq2 => exact Or.inr (Or.inr ⟨s2, tr2, heq2, halloc⟩)

/-! ### Numeric values of the constants and id arithmetic -/

lemma MI_REGION_MAX_val : MI_REGION_MAX = 1024 := rfl

lemma MI_REGION_MAP_BITS_val : MI_REGION_MAP_BITS = 64 := rfl

lemma SIZE_MAX_val : SIZE_MAX = 18446744073709551615 := rfl

lemma MI_SEGMENT_SIZE_val : MI_SEGMENT_SIZE = 4194304 := rfl

lemma MI_REGION_MAX_ALLOC_SIZE_val : MI_REGION_MAX_ALLOC_SIZE = 67108864 := rfl

lemma mem_sweep1_lt (count idx0 i : Nat)
    (h : i ∈ (List.range count).map (fun visited => (idx0 + visited) % count)) :
    i < count := by
  simp only [List.mem_map, List.mem_range] at h
  obtain ⟨v, hv, rfl⟩ := h
  exact Nat.mod_lt _ (by omega)

lemma mem_sweep2_lt (count i : Nat)
    (h : i ∈ (List.range (MI_REGION_MAX - count)).map (fun k => count + k)) :
    i < MI_REGION_MAX := by
  simp only [List.mem_map, List.mem_range] at h
  obtain ⟨v, hv, rfl⟩ := h
  omega

lemma id_div (idx bitidx : Nat) (hb : bitidx < MI_REGION_MAP_BITS) :
    (idx * MI_REGION_MAP_BITS + bitidx) / MI_REGION_MAP_BITS = idx := by
  rw [MI_REGION_MAP_BITS_val] at *
  omega

lemma id_mod (idx bitidx : Nat) (hb : bitidx < MI_REGION_MAP_BITS) :
    (idx * MI_REGION_MAP_BITS + bitidx) % MI_REGION_MAP_BITS = bitidx := by
  rw [MI_REGION_MAP_BITS_val] at *
  omega

lemma id_ne_size_max (idx bitidx : Nat) (hidx : idx < MI_REGION_MAX)
    (hb : bitidx < MI_REGION_MAP_BITS) :
    idx * MI_REGION_MAP_BITS + bitidx ≠ SIZE_MAX := by
  rw [MI_REGION_MAX_val] at hidx
  rw [MI_REGION_MAP_BITS_val] at *
  rw [SIZE_MAX_val]
  omega

/-! ### Guard-level characterization of _mi_mem_free -/

lemma free_oversize_eq (env : Env) (s : GlobalState) (pv size id : Nat)
    (h0 : ¬ size = 0) (hid : ¬ id = SIZE_MAX)
    (hmax : size > MI_REGION_MAX_ALLOC_SIZE) :
    _mi_mem_free env s (some pv) size id = { state := s, trace := [] } := by
  simp only [_mi_mem_free]
  rw [if_neg h0, if_neg hid, if_pos hmax]

lemma free_badidx_eq (env : Env) (s : GlobalState) (pv size id : Nat)
    (h0 : ¬ size = 0) (hid : ¬ id = SIZE_MAX)
    (hmax : ¬ size > MI_REGION_MAX_ALLOC_SIZE)
    (hidx : id / MI_REGION_MAP_BITS ≥ MI_REGION_MAX) :
    _mi_mem_free env s (some pv) size id = { state := s, trace := [] } := by
  simp only [_mi_mem_free]
  rw [if_neg h0, if_neg hid, if_neg hmax, if_pos hidx]

lemma free_badptr_eq (env : Env) (s : GlobalState) (pv size id : Nat)
    (h0 : ¬ size = 0) (hid : ¬ id = SIZE_MAX)
    (hmax : ¬ size > MI_REGION_MAX_ALLOC_SIZE)
    (hidx : ¬ id / MI_REGION_MAP_BITS ≥ MI_REGION_MAX)
    (hmatch : pv ≠ ((s.regions (id / MI_REGION_MAP_BITS)).start.getD 0)
          + (id % MI_REGION_MAP_BITS) * MI_SEGMENT_SIZE
        ∨ id % MI_REGION_MAP_BITS
            + mi_region_block_count (_mi_align_up size env.page_size)
            > MI_REGION_MAP_BITS) :
    _mi_mem_free env s (some pv) size id = { state := s, trace := [] } := by
  simp only [_mi_mem_free]
  rw [if_neg h0, if_neg hid, if_neg hmax, if_neg hidx, if_pos hmatch]

/-- The release path of _mi_mem_free when every guard passes: decommit
(or reset) first, then the unclaim CAS. -/
lemma free_release_eq (env : Env) (s : GlobalState) (pv size id : Nat)
    (h0 : ¬ size = 0) (hid : ¬ id = SIZE_MAX)
    (hmax : ¬ size > MI_REGION_MAX_ALLOC_SIZE)
    (hidx : ¬ id / MI_REGION_MAP_BITS ≥ MI_REGION_MAX)
    (hmatch : ¬ (pv ≠ ((s.regions (id / MI_REGION_MAP_BITS)).start.getD 0)
          + (id % MI_REGION_MAP_BITS) * MI_SEGMENT_SIZE
        ∨ id % MI_REGION_MAP_BITS
            + mi_region_block_count (_mi_align_up size env.page_size)
            > MI_REGION_MAP_BITS)) :
    _mi_mem_free env s (some pv) size id =
      { state := setRegion s (id / MI_REGION_MAP_BITS)
          { s.regions (id / MI_REGION_MAP_BITS) with
            map := (s.regions (id / MI_REGION_MAP_BITS)).map &&&
              cnot64 (mi_region_block_mask
                (mi_region_block_count (_mi_align_up size env.page_size))
                (id % MI_REGION_MAP_BITS)) },
        trace := [(if env.eager_commit
                   then OsEvent.osReset pv (_mi_align_up size env.page_size)
                   else OsEvent.osDecommit pv (_mi_align_up size env.page_size)),
                  OsEvent.mapWrite (id / MI_REGION_MAP_BITS)
                    ((s.regions (id / MI_REGION_MAP_BITS)).map &&&
                     cnot64 (mi_region_block_mask
                       (mi_region_block_count (_mi_align_up size env.page_size))
                       (id % MI_REGION_MAP_BITS)))] } := by
  simp only [_mi_mem_free]
  rw [if_neg h0, if_neg hid, if_neg hmax, if_neg hidx, if_neg hmatch]

/-! ### Concrete fixtures used by the witnesses -/

/-- A concrete test environment: 4 KiB pages, 2 MiB large pages, lazy
region commit, OS reservations succeed at address `2^28` whenever the
requested alignment is MI_SEGMENT_ALIGN, commits succeed. -/
def envT : Env where
  page_size := 4096
  large_page_size := 2097152
  eager_commit := false
  os_alloc := fun _ al _ => if al = MI_SEGMENT_ALIGN then some 268435456 else none
  os_commit_ok := fun _ _ => true

/-- A concrete environment whose OS refuses every reservation. -/
def envF : Env where
  page_size := 4096
  large_page_size := 2097152
  eager_commit := false
  os_alloc := fun _ _ _ => none
  os_commit_ok := fun _ _ => true

/-- The zero-initialized region table (static storage at process start). -/
def s0 : GlobalState where
  regions := fun _ => { map := 0, start := none }
  regions_count := 0
  region_next_idx := 0

lemma s0_maps_wf : MapsWF s0 := by
  intro r
  show (0 : Nat) < UINTPTR_BOUND
  decide

/-! ### The claims -/

/-- Claim C1: for every region bitmap word `map` and block count B with
1 ≤ B ≤ W/4, the claim search in mi_region_alloc_blocks claims exactly
the run [i, i+B) where i is the lowest bit index with i + B ≤ W and
`map & mask(B, i) == 0` (first fit from the least significant bit); if
no such i exists it returns success-without-fit, leaving the region map
unchanged and `p` NULL. -/
theorem spec_C1 (map B : Nat) (hmap : map < UINTPTR_BOUND)
    (hb1 : 1 ≤ B) (hb2 : B ≤ MI_REGION_MAP_BITS / 4) :
    (∀ i, mi_region_search map B = some i →
      i + B ≤ MI_REGION_MAP_BITS ∧
      map &&& mi_region_block_mask B i = 0 ∧
      (∀ j, j + B ≤ MI_REGION_MAP_BITS →
        map &&& mi_region_block_mask B j = 0 → i ≤ j) ∧
      (∀ k, (map ||| (mi_region_block_mask B 0 <<< i)).testBit k
          = (map.testBit k || decide (i ≤ k ∧ k < i + B)))) ∧
    (mi_region_search map B = none →
      ∀ j, j + B ≤ MI_REGION_MAP_BITS → map &&& mi_region_block_mask B j ≠ 0) ∧
    (∀ (env : Env) (s : GlobalState) (idx size : Nat) (commit : Bool),
      mi_region_search (s.regions idx).map B = none →
      mi_region_alloc_blocks env s idx B size commit
        = (s, [], BlockResult.nofit)) := by
  have hb2' : B ≤ MI_REGION_MAP_BITS := le_trans hb2 map_bits_div_le
  refine ⟨?_, ?_, ?_⟩
  · intro i hsome
    obtain ⟨h1, h2, h3⟩ := mi_region_search_some map B i hb1 hb2' hmap hsome
    refine ⟨h1, (mask_land_zero_iff map B i).mpr h2, ?_, ?_⟩
    · intro j hj hmaskj
      by_contra hlt
      exact h3 j (by omega) ((mask_land_zero_iff map B j).mp hmaskj)
    · intro k
      rw [mask_shift0, Nat.testBit_or, mask_testBit]
  · intro hnone j hj hmaskj
    exact mi_region_search_none map B hb1 hb2' hmap hnone j hj
      ((mask_land_zero_iff map B j).mp hmaskj)
  · intro env s idx size commit hnone
    exact alloc_blocks_nofit_eq env s idx B size commit hnone

/-- Witness for C1 at map = 19 (binary 10011) and B = 2: the lowest free
run of two bits starts at bit 2. -/
theorem spec_C1_witness :
    2 + 2 ≤ MI_REGION_MAP_BITS ∧
    19 &&& mi_region_block_mask 2 2 = 0 ∧
    (∀ j, j + 2 ≤ MI_REGION_MAP_BITS →
      19 &&& mi_region_block_mask 2 j = 0 → 2 ≤ j) ∧
    (∀ k, ((19 : Nat) ||| (mi_region_block_mask 2 0 <<< 2)).testBit k
        = ((19 : Nat).testBit k || decide (2 ≤ k ∧ k < 2 + 2))) :=
  (spec_C1 19 2 (by decide) (by decide) (by decide)).1 2 (by rfl)

/-- Claim C6: whenever free on a region-backed block reaches the release
step, the decommit (or reset under eager commit) of the address range
strictly precedes the clearing of the bits from the region map in the
event trace. -/
theorem spec_C6 (env : Env) (s : GlobalState) (pv size id : Nat)
    (h0 : size ≠ 0) (hid : id ≠ SIZE_MAX) (hmax : size ≤ MI_REGION_MAX_ALLOC_SIZE)
    (hidx : id / MI_REGION_MAP_BITS < MI_REGION_MAX)
    (hptr : pv = ((s.regions (id / MI_REGION_MAP_BITS)).start.getD 0)
        + (id % MI_REGION_MAP_BITS) * MI_SEGMENT_SIZE)
    (hrange : id % MI_REGION_MAP_BITS
        + mi_region_block_count (_mi_align_up size env.page_size)
        ≤ MI_REGION_MAP_BITS) :
    (_mi_mem_free env s (some pv) size id).trace =
      [(if env.eager_commit
        then OsEvent.osReset pv (_mi_align_up size env.page_size)
        else OsEvent.osDecommit pv (_mi_align_up size env.page_size)),
       OsEvent.mapWrite (id / MI_REGION_MAP_BITS)
         ((s.regions (id / MI_REGION_MAP_BITS)).map &&&
          cnot64 (mi_region_block_mask
            (mi_region_block_count (_mi_align_up size env.page_size))
            (id % MI_REGION_MAP_BITS)))] ∧
    (∃ pre mid post, (_mi_mem_free env s (some pv) size id).trace =
      pre ++ [(if env.eager_commit
               then OsEvent.osReset pv (_mi_align_up size env.page_size)
               else OsEvent.osDecommit pv (_mi_align_up size env.page_size))]
        ++ mid
        ++ [OsEvent.mapWrite (id / MI_REGION_MAP_BITS)
             ((s.regions (id / MI_REGION_MAP_BITS)).map &&&
              cnot64 (mi_region_block_mask
                (mi_region_block_count (_mi_align_up size env.page_size))
                (id % MI_REGION_MAP_BITS)))]
        ++ post) := by
  have heq := free_release_eq env s pv size id h0 hid (by omega) (by omega)
    (by push_neg; exact ⟨hptr, by omega⟩)
  rw [heq]
  exact ⟨rfl, [], [], [], by simp⟩

/-- Witness for C6: free of the single block at bit 0 of region 0 first
decommits, then clears the bit. -/
theorem spec_C6_witness :
    (_mi_mem_free envT
      { regions := fun r => if r = 0 then { map := 1, start := some 268435456 }
                            else { map := 0, start := none },
        regions_count := 1, region_next_idx := 0 }
      (some 268435456) MI_SEGMENT_SIZE 0).trace =
      [(if envT.eager_commit
        then OsEvent.osReset 268435456 (_mi_align_up MI_SEGMENT_SIZE envT.page_size)
        else OsEvent.osDecommit 268435456 (_mi_align_up MI_SEGMENT_SIZE envT.page_size)),
       OsEvent.mapWrite (0 / MI_REGION_MAP_BITS)
         ((({ regions := fun r => if r = 0 then { map := 1, start := some 268435456 }
                                  else { map := 0, start := none },
              regions_count := 1, region_next_idx := 0 } : GlobalState).regions
              (0 / MI_REGION_MAP_BITS)).map &&&
          cnot64 (mi_region_block_mask
            (mi_region_block_count (_mi_align_up MI_SEGMENT_SIZE envT.page_size))
            (0 % MI_REGION_MAP_BITS)))] :=
  (spec_C6 envT _ 268435456 MI_SEGMENT_SIZE 0 (by decide) (by decide) (by decide)
    (by decide) (by decide) (by decide)).1

/-- Claim C7: oversize or over-aligned requests bypass the region layer
entirely: the direct OS allocation is called with commit = true, its
pointer is returned with id = SIZE_MAX, and the whole region state
(every descriptor and both global counters) is untouched. -/
theorem spec_C7 (env : Env) (s : GlobalState) (size alignment : Nat) (commit : Bool)
    (h : size > MI_REGION_MAX_ALLOC_SIZE ∨ alignment > MI_SEGMENT_ALIGN) :
    _mi_mem_alloc_aligned env s size alignment commit =
      { state := s,
        trace := [OsEvent.osAlloc (mi_good_commit_size env size) alignment true],
        p := env.os_alloc (mi_good_commit_size env size) alignment true,
        id := SIZE_MAX } := by
  unfold _mi_mem_alloc_aligned
  rw [if_pos h]

/-- Witness for C7: a 128 MiB request (twice MAX_ALLOC) goes straight to
the OS with id = SIZE_MAX and the state unchanged. -/
theorem spec_C7_witness :
    _mi_mem_alloc_aligned envT s0 134217728 0 true =
      { state := s0,
        trace := [OsEvent.osAlloc (mi_good_commit_size envT 134217728) 0 true],
        p := envT.os_alloc (mi_good_commit_size envT 134217728) 0 true,
        id := SIZE_MAX } :=
  spec_C7 envT s0 134217728 0 true (Or.inl (by decide))

/-- Claim C10: freeing a null pointer, or freeing with size zero, is an
immediate no-op: no OS primitive is invoked and neither the region table
nor any global counter changes. -/
theorem spec_C10 :
    (∀ (env : Env) (s : GlobalState) (size id : Nat),
      _mi_mem_free env s none size id = { state := s, trace := [] }) ∧
    (∀ (env : Env) (s : GlobalState) (p : Option Nat) (id : Nat),
      _mi_mem_free env s p 0 id = { state := s, trace := [] }) := by
  constructor
  · intro env s size id
    rfl
  · intro env s p id
    cases p with
    | none => rfl
    | some pv => simp [_mi_mem_free]

/-- Claim C9: mi_region_block_count S is the ceiling of S / BLOCK_SIZE
and is at most W/4 for S ≤ MAX_ALLOC; mi_region_block_mask B i equals
((1 << B) - 1) << i computed without overflow for B + i ≤ W, i.e. the
word with exactly the bits [i, i+B) set. -/
theorem spec_C9 :
    (∀ S, S ≤ MI_REGION_MAX_ALLOC_SIZE →
      S ≤ mi_region_block_count S * MI_SEGMENT_SIZE ∧
      mi_region_block_count S * MI_SEGMENT_SIZE < S + MI_SEGMENT_SIZE ∧
      mi_region_block_count S ≤ MI_REGION_MAP_BITS / 4) ∧
    (∀ B i, B + i ≤ MI_REGION_MAP_BITS →
      mi_region_block_mask B i = (2 ^ B - 1) * 2 ^ i ∧
      mi_region_block_mask B i < UINTPTR_BOUND ∧
      (∀ k, (mi_region_block_mask B i).testBit k = decide (i ≤ k ∧ k < i + B))) := by
  constructor
  · intro S hS
    unfold mi_region_block_count
    rw [MI_SEGMENT_SIZE_val, MI_REGION_MAP_BITS_val]
    rw [MI_REGION_MAX_ALLOC_SIZE_val] at hS
    omega
  · intro B i hBi
    exact ⟨mask_eq_mul B i, mask_lt B i hBi, fun k => mask_testBit B i k⟩

/-- Witness for C9 at S = MAX_ALLOC (64 MiB) and (B, i) = (16, 48). -/
theorem spec_C9_witness :
    (67108864 ≤ mi_region_block_count 67108864 * MI_SEGMENT_SIZE ∧
     mi_region_block_count 67108864 * MI_SEGMENT_SIZE < 67108864 + MI_SEGMENT_SIZE ∧
     mi_region_block_count 67108864 ≤ MI_REGION_MAP_BITS / 4) ∧
    (mi_region_block_mask 16 48 = (2 ^ 16 - 1) * 2 ^ 48 ∧
     mi_region_block_mask 16 48 < UINTPTR_BOUND ∧
     (∀ k, (mi_region_block_mask 16 48).testBit k = decide (48 ≤ k ∧ k < 48 + 16))) :=
  ⟨spec_C9.1 67108864 (by decide), spec_C9.2 16 48 (by decide)⟩

/-- Claim C8: a failed post-claim commit is not propagated: with `start`
available and the commit call failing, mi_region_commit_blocks still
returns true with the block pointer and region id, and the claimed bits
stay set (the region map word is not modified by the commit step). -/
theorem spec_C8 (env : Env) (s : GlobalState) (idx bitidx blocks size a : Nat)
    (hstart : (s.regions idx).start = some a)
    (heager : env.eager_commit = false)
    (hfail : env.os_commit_ok (a + bitidx * MI_SEGMENT_SIZE)
        (mi_good_commit_size env size) = false) :
    mi_region_commit_blocks env s idx bitidx blocks size true =
      ({ s with region_next_idx := idx },
       [OsEvent.osCommit (a + bitidx * MI_SEGMENT_SIZE)
          (mi_good_commit_size env size) false],
       BlockResult.ok (a + bitidx * MI_SEGMENT_SIZE)
         (idx * MI_REGION_MAP_BITS + bitidx)) ∧
    ((mi_region_commit_blocks env s idx bitidx blocks size true).1.regions idx).map
      = (s.regions idx).map := by
  have h := commit_blocks_have_start_eq env s idx bitidx blocks size true a hstart
  rw [heager, hfail] at h
  rw [if_pos (show true = true ∧ ¬ false = true by simp)] at h
  exact ⟨h, by rw [h]⟩

/-- Witness for C8: region 0 holds bit 0 claimed, the commit of the
sub-range fails, yet the claim succeeds with pointer and id. -/
theorem spec_C8_witness :
    mi_region_commit_blocks
      { envT with os_commit_ok := fun _ _ => false }
      { regions := fun r => if r = 0 then { map := 1, start := some 268435456 }
                            else { map := 0, start := none },
        regions_count := 1, region_next_idx := 0 }
      0 0 1 MI_SEGMENT_SIZE true =
      ({ ({ regions := fun r => if r = 0 then { map := 1, start := some 268435456 }
                                else { map := 0, start := none },
            regions_count := 1, region_next_idx := 0 } : GlobalState)
          with region_next_idx := 0 },
       [OsEvent.osCommit (268435456 + 0 * MI_SEGMENT_SIZE)
          (mi_good_commit_size { envT with os_commit_ok := fun _ _ => false }
            MI_SEGMENT_SIZE) false],
       BlockResult.ok (268435456 + 0 * MI_SEGMENT_SIZE)
         (0 * MI_REGION_MAP_BITS + 0)) ∧
    ((mi_region_commit_blocks { envT with os_commit_ok := fun _ _ => false }
        { regions := fun r => if r = 0 then { map := 1, start := some 268435456 }
                              else { map := 0, start := none },
          regions_count := 1, region_next_idx := 0 }
        0 0 1 MI_SEGMENT_SIZE true).1.regions 0).map =
      (({ regions := fun r => if r = 0 then { map := 1, start := some 268435456 }
                              else { map := 0, start := none },
          regions_count := 1, region_next_idx := 0 } : GlobalState).regions 0).map :=
  spec_C8 _ _ 0 0 1 MI_SEGMENT_SIZE 268435456 (by decide) (by decide) (by decide)

/-- Claim C3: if the OS reservation of a region's backing memory fails
after bits were claimed, the claim is rolled back and the top-level
allocation returns NULL with out id = SIZE_MAX; more generally, whenever
_mi_mem_alloc_aligned returns a null pointer, the out id is SIZE_MAX and
every region map word equals its pre-call value (no bits remain claimed
by the failed call). -/
theorem spec_C3 (env : Env) (s : GlobalState) (size alignment : Nat) (commit : Bool)
    (hwf : MapsWF s)
    (hpage : 0 < env.page_size) (hdvd : env.page_size ∣ MI_SEGMENT_SIZE)
    (hsz : 0 < size)
    (hp : (_mi_mem_alloc_aligned env s size alignment commit).p = none) :
    (_mi_mem_alloc_aligned env s size alignment commit).id = SIZE_MAX ∧
    ∀ r, (((_mi_mem_alloc_aligned env s size alignment commit).state).regions r).map
      = (s.regions r).map := by
  by_cases hbp : size > MI_REGION_MAX_ALLOC_SIZE ∨ alignment > MI_SEGMENT_ALIGN
  · unfold _mi_mem_alloc_aligned
    rw [if_pos hbp]
    exact ⟨rfl, fun r => rfl⟩
  · have hmax : size ≤ MI_REGION_MAX_ALLOC_SIZE := by omega
    obtain ⟨hb1, hb2⟩ := blocks_in_range env size hpage hdvd hsz hmax
    have hb2' : mi_region_block_count (_mi_align_up size env.page_size)
        ≤ MI_REGION_MAP_BITS := le_trans hb2 map_bits_div_le
    rcases alloc_region_cases env s size alignment commit hbp with
      ⟨s1, tr1, hsw, halloc⟩ | ⟨s1, tr1, p, id, hsw, halloc⟩ | ⟨s1, tr1, hsw1, hrest⟩
    · rw [halloc]
      exact ⟨rfl, fun r => sweep_err_maps _ env _ _ commit s s1 tr1 hwf hb1 hb2' hsw r⟩
    · rw [halloc] at hp
      exact absurd hp (by simp)
    · have hs1 : s1 = s := sweep_nofit_state _ env _ _ commit s s1 tr1 hsw1
      rcases hrest with
        ⟨s2, tr2, hsw2, halloc⟩ | ⟨s2, tr2, p, id, hsw2, halloc⟩ | ⟨s2, tr2, hsw2, halloc⟩
      · rw [hs1] at hsw2
        rw [halloc]
        exact ⟨rfl, fun r => sweep_err_maps _ env _ _ commit s s2 tr2 hwf hb1 hb2' hsw2 r⟩
      · rw [halloc] at hp
        exact absurd hp (by simp)
      · have hs2 : s2 = s1 := sweep_nofit_state _ env _ _ commit s1 s2 tr2 hsw2
        rw [halloc]
        refine ⟨rfl, fun r => ?_⟩
        rw [hs2, hs1]

set_option maxRecDepth 8000 in
/-- Witness for C3: with an OS that refuses every reservation, a 4 MiB
request claims bit 0 of region 0, the reservation fails, the claim is
rolled back, and the call returns NULL with id = SIZE_MAX. -/
theorem spec_C3_witness :
    (_mi_mem_alloc_aligned envF s0 MI_SEGMENT_SIZE 0 true).id = SIZE_MAX ∧
    ∀ r, (((_mi_mem_alloc_aligned envF s0 MI_SEGMENT_SIZE 0 true).state).regions r).map
      = (s0.regions r).map :=
  spec_C3 envF s0 MI_SEGMENT_SIZE 0 true s0_maps_wf (by decide)
    ⟨1024, rfl⟩ (by decide) (by rfl)

/-- Free after a successful claim restores the claimed region map word. -/
lemma roundtrip_from_sweep_ok (env : Env) (s s1 : GlobalState) (tr1 : List OsEvent)
    (l : List Nat) (size : Nat) (commit : Bool) (p0 id0 : Nat)
    (hwf : MapsWF s)
    (hpage : 0 < env.page_size) (hdvd : env.page_size ∣ MI_SEGMENT_SIZE)
    (hsz : 0 < size) (hmax : size ≤ MI_REGION_MAX_ALLOC_SIZE)
    (hlN : ∀ i, i ∈ l → i < MI_REGION_MAX)
    (hsw : sweep env (mi_region_block_count (_mi_align_up size env.page_size))
        (_mi_align_up size env.page_size) commit l s = (s1, tr1, BlockResult.ok p0 id0)) :
    ((_mi_mem_free env s1 (some p0) size id0).state.regions
        (id0 / MI_REGION_MAP_BITS)).map
      = (s.regions (id0 / MI_REGION_MAP_BITS)).map := by
  obtain ⟨hb1, hb2⟩ := blocks_in_range env size hpage hdvd hsz hmax
  have hb2' : mi_region_block_count (_mi_align_up size env.page_size)
      ≤ MI_REGION_MAP_BITS := le_trans hb2 map_bits_div_le
  obtain ⟨idx, bitidx, a, hmem, hrange, hideq, hpeq, hstart, hdisj, hmapeq, hother⟩ :=
    sweep_ok_spec l env _ _ commit s s1 tr1 p0 id0 hwf hb1 hb2' hsw
  have hidxN : idx < MI_REGION_MAX := hlN idx hmem
  have hbit64 : bitidx < MI_REGION_MAP_BITS := by omega
  have hdiv : id0 / MI_REGION_MAP_BITS = idx := by
    rw [hideq]; exact id_div idx bitidx hbit64
  have hmod : id0 % MI_REGION_MAP_BITS = bitidx := by
    rw [hideq]; exact id_mod idx bitidx hbit64
  have hfree := free_release_eq env s1 p0 size id0
    (by omega)
    (by rw [hideq]; exact id_ne_size_max idx bitidx hidxN hbit64)
    (by omega)
    (by rw [hdiv]; omega)
    (by
      push_neg
      refine ⟨?_, ?_⟩
      · rw [hdiv, hmod, hstart]
        simpa using hpeq
      · rw [hmod]; omega)
  rw [hfree, hdiv, hmod]
  simp only [setRegion_regions, if_pos rfl]
  rw [hmapeq]
  exact lor_and_cnot _ _ (hwf idx) (mask_lt _ _ (by omega)) hdisj

/-- Claim C2: for 0 < S ≤ MAX_ALLOC, freeing with exactly the pointer
and id returned by a successful region-backed _mi_mem_alloc_aligned
restores that region's map word to its value before the allocation (both
paths round S up to the OS page size and derive the same block count and
mask, so exactly the claimed bits are cleared). -/
theorem spec_C2 (env : Env) (s : GlobalState) (size alignment : Nat) (commit : Bool)
    (pv : Nat)
    (hwf : MapsWF s) (hcnt : s.regions_count ≤ MI_REGION_MAX)
    (hpage : 0 < env.page_size) (hdvd : env.page_size ∣ MI_SEGMENT_SIZE)
    (hsz : 0 < size) (hmax : size ≤ MI_REGION_MAX_ALLOC_SIZE)
    (hp : (_mi_mem_alloc_aligned env s size alignment commit).p = some pv)
    (hid : (_mi_mem_alloc_aligned env s size alignment commit).id ≠ SIZE_MAX) :
    ((_mi_mem_free env (_mi_mem_alloc_aligned env s size alignment commit).state
        (some pv) size
        (_mi_mem_alloc_aligned env s size alignment commit).id).state.regions
      ((_mi_mem_alloc_aligned env s size alignment commit).id / MI_REGION_MAP_BITS)).map
      = (s.regions ((_mi_mem_alloc_aligned env s size alignment commit).id
          / MI_REGION_MAP_BITS)).map := by
  by_cases hbp : size > MI_REGION_MAX_ALLOC_SIZE ∨ alignment > MI_SEGMENT_ALIGN
  · refine absurd ?_ hid
    unfold _mi_mem_alloc_aligned
    rw [if_pos hbp]
  · rcases alloc_region_cases env s size alignment commit hbp with
      ⟨s1, tr1, hsw, halloc⟩ | ⟨s1, tr1, p0, id0, hsw, halloc⟩ | ⟨s1, tr1, hsw1, hrest⟩
    · rw [halloc] at hp
      exact absurd hp (by simp)
    · rw [halloc] at hp
      have hpv : p0 = pv := Option.some.inj hp
      rw [halloc]
      rw [← hpv]
      exact roundtrip_from_sweep_ok env s s1 tr1 _ size commit p0 id0 hwf hpage hdvd
        hsz hmax
        (fun i hi => lt_of_lt_of_le (mem_sweep1_lt s.regions_count s.region_next_idx i hi)
          hcnt)
        hsw
    · have hs1 : s1 = s := sweep_nofit_state _ env _ _ commit s s1 tr1 hsw1
      rcases hrest with
        ⟨s2, tr2, hsw2, halloc⟩ | ⟨s2, tr2, p0, id0, hsw2, halloc⟩ | ⟨s2, tr2, hsw2, halloc⟩
      · rw [halloc] at hp
        exact absurd hp (by simp)
      · rw [hs1] at hsw2
        rw [halloc] at hp
        have hpv : p0 = pv := Option.some.inj hp
        rw [halloc]
        rw [← hpv]
        exact roundtrip_from_sweep_ok env s s2 tr2 _ size commit p0 id0 hwf hpage hdvd
          hsz hmax
          (fun i hi => mem_sweep2_lt s.regions_count i hi)
          hsw2
      · rw [halloc] at hid
        exact absurd rfl hid

set_option maxRecDepth 8000 in
/-- Witness for C2: a 4 MiB allocation from the pristine state claims
bit 0 of region 0 (id 0, pointer 2^28); freeing it restores the map. -/
theorem spec_C2_witness :
    ((_mi_mem_free envT (_mi_mem_alloc_aligned envT s0 MI_SEGMENT_SIZE 0 true).state
        (some 268435456) MI_SEGMENT_SIZE
        (_mi_mem_alloc_aligned envT s0 MI_SEGMENT_SIZE 0 true).id).state.regions
      ((_mi_mem_alloc_aligned envT s0 MI_SEGMENT_SIZE 0 true).id
          / MI_REGION_MAP_BITS)).map
      = (s0.regions ((_mi_mem_alloc_aligned envT s0 MI_SEGMENT_SIZE 0 true).id
          / MI_REGION_MAP_BITS)).map :=
  spec_C2 envT s0 MI_SEGMENT_SIZE 0 true 268435456 s0_maps_wf (by decide)
    (by decide) ⟨1024, rfl⟩ (by decide) (by decide) (by rfl) (by decide)

/-! ### C5: free-path validation -/

/-- A state whose region 0 has published backing memory but no claimed
bits: the free-path map validation must fail on it. -/
def sC5 : GlobalState where
  regions := fun r => if r = 0 then { map := 0, start := some 268435456 }
                      else { map := 0, start := none }
  regions_count := 1
  region_next_idx := 0

/-- Counterexample to C5 as stated: freeing (p = start, id = 0,
size = 4 MiB) in a state whose map has none of the mask bits set fails
the claimed map validation, yet _mi_mem_free does not return silently:
it calls the OS decommit primitive and runs the unclaim CAS.  In the
code (memory.c lines 303-305) the map-bits and start checks are
mi_assert_internal statements, no-ops in release builds; only the
pointer/range check at line 309 actually returns. -/
theorem spec_C5_cex :
    ((sC5.regions 0).map &&& mi_region_block_mask
        (mi_region_block_count (_mi_align_up MI_SEGMENT_SIZE envT.page_size)) 0
      ≠ mi_region_block_mask
        (mi_region_block_count (_mi_align_up MI_SEGMENT_SIZE envT.page_size)) 0) ∧
    (_mi_mem_free envT sC5 (some 268435456) MI_SEGMENT_SIZE 0).trace
      = [OsEvent.osDecommit 268435456 (_mi_align_up MI_SEGMENT_SIZE envT.page_size),
         OsEvent.mapWrite 0 ((sC5.regions 0).map &&& cnot64 (mi_region_block_mask
           (mi_region_block_count (_mi_align_up MI_SEGMENT_SIZE envT.page_size)) 0))] ∧
    (_mi_mem_free envT sC5 (some 268435456) MI_SEGMENT_SIZE 0).trace ≠ [] := by
  exact ⟨by decide, by rfl, by decide⟩

/-- Amended C5: on free with id ≠ SIZE_MAX the layer returns silently
(state untouched, no OS primitive called) exactly on the guards the code
actually has: size > MAX_ALLOC, or idx = id/W ≥ N, or the passed pointer
differs from start + bit·BLOCK_SIZE (a NULL start being read as address
0), or bit + B > W.  The map-bits-set and start-non-null validations are
debug assertions only and do not guard the release path. -/
theorem spec_C5_amended (env : Env) (s : GlobalState) (pv size id : Nat)
    (h0 : size ≠ 0) (hid : id ≠ SIZE_MAX) :
    (size > MI_REGION_MAX_ALLOC_SIZE →
      _mi_mem_free env s (some pv) size id = { state := s, trace := [] }) ∧
    (size ≤ MI_REGION_MAX_ALLOC_SIZE → id / MI_REGION_MAP_BITS ≥ MI_REGION_MAX →
      _mi_mem_free env s (some pv) size id = { state := s, trace := [] }) ∧
    (size ≤ MI_REGION_MAX_ALLOC_SIZE → id / MI_REGION_MAP_BITS < MI_REGION_MAX →
      (pv ≠ ((s.regions (id / MI_REGION_MAP_BITS)).start.getD 0)
          + (id % MI_REGION_MAP_BITS) * MI_SEGMENT_SIZE
        ∨ id % MI_REGION_MAP_BITS
            + mi_region_block_count (_mi_align_up size env.page_size)
            > MI_REGION_MAP_BITS) →
      _mi_mem_free env s (some pv) size id = { state := s, trace := [] }) := by
  refine ⟨?_, ?_, ?_⟩
  · intro h
    exact free_oversize_eq env s pv size id h0 hid h
  · intro h1 h2
    exact free_badidx_eq env s pv size id h0 hid (by omega) h2
  · intro h1 h2 h3
    exact free_badptr_eq env s pv size id h0 hid (by omega) (by omega) h3

/-- Witness for the amended C5: a pointer that does not match
start + bit·BLOCK_SIZE is silently ignored. -/
theorem spec_C5_amended_witness :
    _mi_mem_free envT s0 (some 1) MI_SEGMENT_SIZE 0 = { state := s0, trace := [] } :=
  (spec_C5_amended envT s0 1 MI_SEGMENT_SIZE 0 (by decide) (by decide)).2.2
    (by decide) (by decide) (Or.inl (by decide))

/-! ### C4: region-table invariants -/

/-- OS contract of os_reserve_aligned: a returned pointer is aligned to
the requested alignment. -/
def OsAllocAligned (env : Env) : Prop :=
  ∀ sz al c a, env.os_alloc sz al c = some a → al ∣ a

/-- The state invariant actually maintained by the code: regions_count
never exceeds the number of initialized descriptors in the table (hence
never exceeds N), and every published start is aligned to
MI_SEGMENT_ALIGN, the alignment the reservation at memory.c line 120
requests. -/
def RegionsWF (s : GlobalState) : Prop :=
  s.regions_count ≤ ((Finset.range MI_REGION_MAX).filter
      (fun r => (s.regions r).start ≠ none)).card ∧
  ∀ r a, (s.regions r).start = some a → MI_SEGMENT_ALIGN ∣ a

lemma RegionsWF_count_le (s : GlobalState) (h : RegionsWF s) :
    s.regions_count ≤ MI_REGION_MAX :=
  le_trans h.1 (le_trans (Finset.card_filter_le _ _)
    (le_of_eq (Finset.card_range _)))

lemma filter_start_congr (s s' : GlobalState)
    (h : ∀ r, (s'.regions r).start = none ↔ (s.regions r).start = none) :
    ((Finset.range MI_REGION_MAX).filter
        (fun r => (s'.regions r).start ≠ none)).card
      = ((Finset.range MI_REGION_MAX).filter
          (fun r => (s.regions r).start ≠ none)).card := by
  refine congrArg Finset.card (Finset.filter_congr ?_)
  intro r _
  exact not_congr (h r)

/-- Any state transformation that changes only map words (and the
cursor/count verbatim) preserves the C4 invariant. -/
lemma regionswf_map_update (s s' : GlobalState)
    (hcount : s'.regions_count = s.regions_count)
    (hstarts : ∀ r, (s'.regions r).start = (s.regions r).start)
    (h : RegionsWF s) : RegionsWF s' := by
  constructor
  · rw [hcount, filter_start_congr s s' (fun r => by rw [hstarts r])]
    exact h.1
  · intro r a ha
    rw [hstarts r] at ha
    exact h.2 r a ha

/-- Publishing a fresh start at an uninitialized index grows the set of
initialized descriptors by exactly one. -/
lemma filter_publish_card (s : GlobalState) (idx a : Nat)
    (hidx : idx < MI_REGION_MAX) (hnone : (s.regions idx).start = none) :
    ((Finset.range MI_REGION_MAX).filter
        (fun r => ((fun r => if r = idx then { s.regions idx with start := some a }
                             else s.regions r) r).start ≠ none)).card
      = ((Finset.range MI_REGION_MAX).filter
          (fun r => (s.regions r).start ≠ none)).card + 1 := by
  have hset : (Finset.range MI_REGION_MAX).filter
      (fun r => ((fun r => if r = idx then { s.regions idx with start := some a }
                           else s.regions r) r).start ≠ none)
      = insert idx ((Finset.range MI_REGION_MAX).filter
          (fun r => (s.regions r).start ≠ none)) := by
    apply Finset.ext
    intro r
    simp only [Finset.mem_filter, Finset.mem_insert, Finset.mem_range]
    by_cases hr : r = idx
    · subst hr
      simp [hidx, hnone]
    · simp [hr]
  rw [hset, Finset.card_insert_of_not_mem]
  simp [hnone]

set_option maxRecDepth 2000 in
lemma commit_blocks_wf (env : Env) (s : GlobalState)
    (idx bitidx blocks size : Nat) (commit : Bool)
    (hos : OsAllocAligned env) (hwf : RegionsWF s) (hidx : idx < MI_REGION_MAX) :
    RegionsWF (mi_region_commit_blocks env s idx bitidx blocks size commit).1 := by
  rcases hstart : (s.regions idx).start with _ | a
  · rcases hosr : env.os_alloc MI_REGION_SIZE MI_SEGMENT_ALIGN env.eager_commit
      with _ | a
    · rw [commit_blocks_err_eq env s idx bitidx blocks size commit hstart hosr]
      refine regionswf_map_update s _ ?_ ?_ hwf
      · rfl
      · intro r
        by_cases hr : r = idx <;> simp [setRegion_regions, hr]
    · rw [commit_blocks_fresh_eq env s idx bitidx blocks size commit a hstart hosr]
      constructor
      · show s.regions_count + 1 ≤ _
        rw [filter_publish_card s idx a hidx hstart]
        have hcle := hwf.1
        omega
      · intro r b hb
        by_cases hr : r = idx
        · subst hr
          simp only [if_pos rfl] at hb
          have hab : a = b := by simpa using hb
          subst hab
          exact hos MI_REGION_SIZE MI_SEGMENT_ALIGN env.eager_commit a hosr
        · simp only [if_neg hr] at hb
          exact hwf.2 r b hb
  · rw [commit_blocks_have_start_eq env s idx bitidx blocks size commit a hstart]
    refine regionswf_map_update s _ ?_ ?_ hwf
    · rfl
    · intro r
      rfl

lemma try_wf (env : Env) (s : GlobalState) (idx blocks size : Nat) (commit : Bool)
    (hos : OsAllocAligned env) (hwf : RegionsWF s) (hidx : idx < MI_REGION_MAX) :
    RegionsWF (mi_region_try_alloc_blocks env s idx blocks size commit).1 := by
  by_cases hfull : (s.regions idx).map = MI_REGION_MAP_FULL
  · rw [try_alloc_full_eq env s idx blocks size commit hfull]
    exact hwf
  · rw [try_alloc_open_eq env s idx blocks size commit hfull]
    rcases hsearch : mi_region_search (s.regions idx).map blocks with _ | bitidx
    · rw [alloc_blocks_nofit_eq env s idx blocks size commit hsearch]
      exact hwf
    · rw [alloc_blocks_claim_eq env s idx blocks size commit bitidx hsearch]
      have hscwf : RegionsWF (setRegion s idx { s.regions idx with
          map := (s.regions idx).map ||| (mi_region_block_mask blocks 0 <<< bitidx) }) := by
        refine regionswf_map_update s _ ?_ ?_ hwf
        · rfl
        · intro r
          by_cases hr : r = idx <;> simp [setRegion_regions, hr]
      exact commit_blocks_wf env _ idx bitidx blocks size commit hos hscwf hidx

lemma sweep_wf : ∀ (l : List Nat) (env : Env) (blocks size : Nat) (commit : Bool)
    (s : GlobalState),
    OsAllocAligned env → RegionsWF s → (∀ i, i ∈ l → i < MI_REGION_MAX) →
    RegionsWF (sweep env blocks size commit l s).1 := by
  intro l
  induction l with
  | nil =>
    intro env blocks size commit s hos hwf hl
    exact hwf
  | cons idx rest ih =>
    intro env blocks size commit s hos hwf hl
    have hidx : idx < MI_REGION_MAX := hl idx (List.mem_cons_self idx rest)
    have htwf : RegionsWF (mi_region_try_alloc_blocks env s idx blocks size commit).1 :=
      try_wf env s idx blocks size commit hos hwf hidx
    rcases htry : mi_region_try_alloc_blocks env s idx blocks size commit
      with ⟨s1, tr1, res⟩
    rw [htry] at htwf
    cases res with
    | nofit =>
      obtain ⟨hs1, -⟩ := try_nofit_state env s idx blocks size commit s1 tr1 htry
      rw [hs1] at htry
      rw [sweep_cons_nofit_eq env blocks size commit idx rest s s tr1 htry]
      exact ih env blocks size commit s hos hwf
        (fun i hi => hl i (List.mem_cons_of_mem idx hi))
    | err =>
      rw [sweep_cons_err_eq env blocks size commit idx rest s s1 tr1 htry]
      exact htwf
    | ok p id =>
      rw [sweep_cons_ok_eq env blocks size commit idx rest s s1 tr1 p id htry]
      exact htwf

lemma alloc_aligned_wf (env : Env) (s : GlobalState) (size alignment : Nat)
    (commit : Bool) (hos : OsAllocAligned env) (hwf : RegionsWF s) :
    RegionsWF (_mi_mem_alloc_aligned env s size alignment commit).state := by
  by_cases hbp : size > MI_REGION_MAX_ALLOC_SIZE ∨ alignment > MI_SEGMENT_ALIGN
  · unfold _mi_mem_alloc_aligned
    rw [if_pos hbp]
    exact hwf
  · have hcnt : s.regions_count ≤ MI_REGION_MAX := RegionsWF_count_le s hwf
    have hl1 : ∀ i, i ∈ (List.range s.regions_count).map
        (fun visited => (s.region_next_idx + visited) % s.regions_count) →
        i < MI_REGION_MAX :=
      fun i hi => lt_of_lt_of_le (mem_sweep1_lt s.regions_count s.region_next_idx i hi)
        hcnt
    have hl2 : ∀ i, i ∈ (List.range (MI_REGION_MAX - s.regions_count)).map
        (fun k => s.regions_count + k) → i < MI_REGION_MAX :=
      fun i hi => mem_sweep2_lt s.regions_count i hi
    have hwf1 := sweep_wf _ env (mi_region_block_count (_mi_align_up size env.page_size))
      (_mi_align_up size env.page_size) commit s hos hwf hl1
    rcases alloc_region_cases env s size alignment commit hbp with
      ⟨s1, tr1, hsw, halloc⟩ | ⟨s1, tr1, p0, id0, hsw, halloc⟩ | ⟨s1, tr1, hsw1, hrest⟩
    · rw [halloc]
      rw [hsw] at hwf1
      exact hwf1
    · rw [halloc]
      rw [hsw] at hwf1
      exact hwf1
    · have hs1 : s1 = s := sweep_nofit_state _ env _ _ commit s s1 tr1 hsw1
      have hwf2 := sweep_wf
        ((List.range (MI_REGION_MAX - s.regions_count)).map
          (fun k => s.regions_count + k))
        env (mi_region_block_count (_mi_align_up size env.page_size))
        (_mi_align_up size env.page_size) commit s hos hwf hl2
      rcases hrest with
        ⟨s2, tr2, hsw2, halloc⟩ | ⟨s2, tr2, p0, id0, hsw2, halloc⟩ |
        ⟨s2, tr2, hsw2, halloc⟩
      · rw [halloc]
        rw [hs1] at hsw2
        rw [hsw2] at hwf2
        exact hwf2
      · rw [halloc]
        rw [hs1] at hsw2
        rw [hsw2] at hwf2
        exact hwf2
      · rw [halloc]
        rw [hs1] at hsw2
        rw [hsw2] at hwf2
        exact hwf2

lemma free_wf (env : Env) (s : GlobalState) (p : Option Nat) (size id : Nat)
    (hwf : RegionsWF s) :
    RegionsWF (_mi_mem_free env s p size id).state := by
  rcases p with _ | pv
  · exact hwf
  · simp only [_mi_mem_free]
    split
    · exact hwf
    · split
      · exact hwf
      · split
        · exact hwf
        · split
          · exact hwf
          · split
            · exact hwf
            · refine regionswf_map_update s _ ?_ ?_ hwf
              · rfl
              · intro r
                by_cases hr : r = id / MI_REGION_MAP_BITS <;>
                  simp [setRegion_regions, hr]

/-- Amended C4: the code requests MI_SEGMENT_ALIGN (not REGION_SIZE)
alignment for region reservations, so the invariant it maintains is:
regions_count ≤ N at all times (the count is incremented only by the
winner of a descriptor's one-time start publication), and every
published start is aligned to MI_SEGMENT_ALIGN.  Both allocation and
free preserve the invariant under the OS alignment contract. -/
theorem spec_C4_amended (env : Env) (s : GlobalState)
    (hos : OsAllocAligned env) (hwf : RegionsWF s) :
    s.regions_count ≤ MI_REGION_MAX ∧
    (∀ size alignment commit,
      RegionsWF (_mi_mem_alloc_aligned env s size alignment commit).state ∧
      (_mi_mem_alloc_aligned env s size alignment commit).state.regions_count
        ≤ MI_REGION_MAX ∧
      (∀ r a, ((_mi_mem_alloc_aligned env s size alignment commit).state.regions r).start
          = some a → MI_SEGMENT_ALIGN ∣ a)) ∧
    (∀ p size id,
      RegionsWF (_mi_mem_free env s p size id).state ∧
      (_mi_mem_free env s p size id).state.regions_count ≤ MI_REGION_MAX ∧
      (∀ r a, ((_mi_mem_free env s p size id).state.regions r).start = some a →
        MI_SEGMENT_ALIGN ∣ a)) := by
  refine ⟨RegionsWF_count_le s hwf, ?_, ?_⟩
  · intro size alignment commit
    have h := alloc_aligned_wf env s size alignment commit hos hwf
    exact ⟨h, RegionsWF_count_le _ h, h.2⟩
  · intro p size id
    have h := free_wf env s p size id hwf
    exact ⟨h, RegionsWF_count_le _ h, h.2⟩

lemma envT_os_aligned : OsAllocAligned envT := by
  intro sz al c a h
  simp only [envT] at h
  split at h
  · next heq =>
    have ha : a = 268435456 := (Option.some.inj h).symm
    subst ha
    rw [heq]
    decide
  · exact absurd h (by simp)

lemma s0_regions_wf : RegionsWF s0 := by
  constructor
  · exact Nat.zero_le _
  · intro r a h
    exact absurd h (by simp [s0])

/-- Witness for the amended C4 at the pristine state and the standard
test environment. -/
theorem spec_C4_amended_witness :
    s0.regions_count ≤ MI_REGION_MAX ∧
    (∀ size alignment commit,
      RegionsWF (_mi_mem_alloc_aligned envT s0 size alignment commit).state ∧
      (_mi_mem_alloc_aligned envT s0 size alignment commit).state.regions_count
        ≤ MI_REGION_MAX ∧
      (∀ r a, ((_mi_mem_alloc_aligned envT s0 size alignment commit).state.regions r).start
          = some a → MI_SEGMENT_ALIGN ∣ a)) ∧
    (∀ p size id,
      RegionsWF (_mi_mem_free envT s0 p size id).state ∧
      (_mi_mem_free envT s0 p size id).state.regions_count ≤ MI_REGION_MAX ∧
      (∀ r a, ((_mi_mem_free envT s0 p size id).state.regions r).start = some a →
        MI_SEGMENT_ALIGN ∣ a)) :=
  spec_C4_amended envT s0 envT_os_aligned s0_regions_wf

/-- An OS that honours exactly the alignment the code requests, placing
the reservation at address 4 MiB: segment-aligned, but not on a 256 MiB
REGION_SIZE boundary. -/
def envC4 : Env where
  page_size := 4096
  large_page_size := 2097152
  eager_commit := false
  os_alloc := fun _ al _ => if al = MI_SEGMENT_ALIGN then some MI_SEGMENT_SIZE else none
  os_commit_ok := fun _ _ => true

lemma envC4_os_aligned : OsAllocAligned envC4 := by
  intro sz al c a h
  simp only [envC4] at h
  split at h
  · next heq =>
    have ha : a = MI_SEGMENT_SIZE := (Option.some.inj h).symm
    subst ha
    rw [heq]
    exact dvd_refl _
  · exact absurd h (by simp)

set_option maxRecDepth 8000 in
/-- Counterexample to C4 as stated: the reservation at memory.c line 120
requests only MI_SEGMENT_ALIGN (4 MiB) alignment for the REGION_SIZE
chunk, so under the OS contract the spec itself assumes (pointer aligned
to the requested alignment) a published region start need not lie on a
REGION_SIZE (256 MiB) boundary: here region 0 publishes start = 4 MiB. -/
theorem spec_C4_cex :
    OsAllocAligned envC4 ∧
    ((_mi_mem_alloc_aligned envC4 s0 MI_SEGMENT_SIZE 0 true).state.regions 0).start
      = some MI_SEGMENT_SIZE ∧
    ¬ MI_REGION_SIZE ∣ MI_SEGMENT_SIZE :=
  ⟨envC4_os_aligned, by rfl, by decide⟩
